import Mathlib

/-!
User service of the `rn-go-monorepo` backend

A shallow embedding of `apps/backend/internal/{models,repositories,services,controllers,
utils}` and the properties of the user service, of its handlers and of the response
envelope that the specification states.

The Go code talks to collaborators that are not part of the repository: GORM on a
PostgreSQL connection, `golang.org/x/crypto/bcrypt`, `go-playground/validator`, `strconv`,
`encoding/json` and fiber.  They are modelled as follows.

* The table `users` is a list of rows together with the last value of the serial sequence
  behind `users.id`.  Every SQL statement GORM issues is a function on that state; a
  statement can also be made to fail with a driver error (`fault`), which leaves the table
  as it is.
* bcrypt is a pair of unspecified functions (`Bcrypt`); the random salt drawn by
  `GenerateFromPassword` is an explicit argument.  What a property needs of bcrypt is a
  hypothesis of its theorem.
* `validator.Struct` is evaluated on the struct tags that `models.User` declares.
* `strconv.Atoi` and `strconv.ParseUint` are written out for a 64-bit `int`; Go's `int`
  arithmetic wraps around (`wrapInt`).
* A handler gets what fiber made of the request (the parsed body, the raw path and query
  values) and returns the status and the `utils.Response` it sends, whose `data` is a
  `JSON` value.

Every service method returns, next to its Go results, the table it leaves and the list of
calls it made to the repository and to bcrypt, so that "makes no call" can be stated.
Time stamps are natural numbers, `0` being Go's zero `time.Time`.
-/

namespace Backend

/-! ## Errors -/

/-- Go `error` values met in the backend. -/
inductive GoError where
  /-- The sentinel `gorm.ErrRecordNotFound`. -/
  | ErrRecordNotFound
  /-- The value of `errors.New(msg)`. -/
  | New (msg : String)
  /-- Any other error that GORM reports from the database driver. -/
  | Storage (msg : String)
  /-- An error returned by the bcrypt package. -/
  | Crypto (msg : String)
  deriving DecidableEq, Repr

/-- The method `Error()` of an error value. -/
def GoError.Error : GoError → String
  | .ErrRecordNotFound => "record not found"
  | .New msg => msg
  | .Storage msg => msg
  | .Crypto msg => msg

/-- Results `(value, error)` of Go functions are `Except` values; their equality is
decidable. -/
instance instDecidableEqExcept {ε α : Type} [DecidableEq ε] [DecidableEq α] :
    DecidableEq (Except ε α)
  | .ok a, .ok b => if h : a = b then isTrue (by rw [h]) else isFalse (by simpa using h)
  | .error a, .error b => if h : a = b then isTrue (by rw [h]) else isFalse (by simpa using h)
  | .ok _, .error _ => isFalse (by simp)
  | .error _, .ok _ => isFalse (by simp)

/-! ## models -/

/-- Instants; `0` is the zero `time.Time`. -/
abbrev Time := Nat

/-- The struct `models.User` with the embedded `models.BaseModel` flattened.
`DeletedAt` is `gorm.DeletedAt`: `none` is the SQL `NULL` of a row that is not deleted. -/
structure User where
  ID : Nat
  CreatedAt : Time
  UpdatedAt : Time
  DeletedAt : Option Time
  Username : String
  Password : String
  FirstName : String
  LastName : String
  IsActive : Bool
  deriving DecidableEq, Repr

/-- The hook `BaseModel.BeforeCreate`: both time stamps are set to the current time. -/
def User.BeforeCreate (b : User) (now : Time) : User :=
  { b with CreatedAt := now, UpdatedAt := now }

/-- The hook `BaseModel.BeforeUpdate`: the update time stamp is set to the current time. -/
def User.BeforeUpdate (b : User) (now : Time) : User :=
  { b with UpdatedAt := now }

/-! ## The database behind GORM -/

/-- State of the table `users`: its rows in heap order and the last value produced by the
serial sequence of the primary key. -/
structure DB where
  users : List User
  users_id_seq : Nat
  deriving DecidableEq, Repr

/-- The soft-delete scope GORM adds to every query on a model with a `gorm.DeletedAt`
field: `deleted_at IS NULL`. -/
def visible (r : User) : Bool := r.DeletedAt.isNone

/-- The column sizes of the `gorm` tags (`size:100`, `size:255`), which PostgreSQL enforces
on `character varying` columns. -/
def fitsColumns (r : User) : Bool :=
  decide (r.Username.length ≤ 100) && decide (r.Password.length ≤ 255) &&
    decide (r.FirstName.length ≤ 100) && decide (r.LastName.length ≤ 100)

/-- The constraints of table `users` checked when row `r` is written next to the rows
`others`: primary key, the unique index on `username` (it covers soft-deleted rows too) and
the column sizes.  Returns the driver error of the first violated constraint. -/
def constraintError (others : List User) (r : User) : Option GoError :=
  if others.any (fun o => o.ID == r.ID) then
    some (.Storage "duplicate key value violates unique constraint users_pkey")
  else if others.any (fun o => o.Username == r.Username) then
    some (.Storage "duplicate key value violates unique constraint idx_users_username")
  else if !fitsColumns r then
    some (.Storage "value too long for type character varying")
  else none

namespace gorm

/-- The query `db.Where(cond).First(&user)`:
`SELECT * FROM users WHERE cond AND deleted_at IS NULL ORDER BY id LIMIT 1`. -/
def First (fault : Option String) (db : DB) (cond : User → Bool) : Except GoError User :=
  match fault with
  | some msg => .error (.Storage msg)
  | none =>
    match ((db.users.filter (fun r => visible r && cond r)).insertionSort
        (fun a b => a.ID ≤ b.ID)).head? with
    | some r => .ok r
    | none => .error .ErrRecordNotFound

/-- The statement `db.Create(user)`.  The `BeforeCreate` hook runs first; a zero
`IsActive` is replaced by the column default (`default:true`), so the written flag is
always `true`; a zero primary key is left to the serial sequence, whose value is consumed
even when the insert is rejected.  Returns the error, the struct as GORM leaves it and the
new state. -/
def Create (fault : Option String) (now : Time) (db : DB) (user : User) :
    Option GoError × User × DB :=
  let user := { user.BeforeCreate now with IsActive := true }
  match fault with
  | some msg => (some (.Storage msg), user, db)
  | none =>
    let seq := if user.ID = 0 then db.users_id_seq + 1 else db.users_id_seq
    let row := { user with ID := if user.ID = 0 then seq else user.ID }
    match constraintError db.users row with
    | some err => (some err, user, { db with users_id_seq := seq })
    | none => (none, row, { users := db.users ++ [row], users_id_seq := seq })

/-- The insert that `db.Save` falls back to when its `UPDATE` matched no row:
`INSERT ... ON CONFLICT (id) DO UPDATE SET` every column but `id` and `created_at`, run
without hooks.  A zero `created_at` is filled with the current time and a zero `IsActive`
with the column default. -/
def Upsert (fault : Option String) (now : Time) (db : DB) (user : User) :
    Option GoError × User × DB :=
  let user := { user with
    CreatedAt := if user.CreatedAt = 0 then now else user.CreatedAt, IsActive := true }
  match fault with
  | some msg => (some (.Storage msg), user, db)
  | none =>
    if db.users.any (fun r => r.ID == user.ID) then
      let others := db.users.filter (fun r => r.ID != user.ID)
      if others.any (fun o => o.Username == user.Username) then
        (some (.Storage "duplicate key value violates unique constraint idx_users_username"),
          user, db)
      else if !fitsColumns user then
        (some (.Storage "value too long for type character varying"), user, db)
      else
        (none, user, { db with users := db.users.map (fun r =>
          if r.ID == user.ID then { user with CreatedAt := r.CreatedAt } else r) })
    else
      match constraintError db.users user with
      | some err => (some err, user, db)
      | none => (none, user, { db with users := db.users ++ [user] })

/-- The statement `db.Save(user)`.  With a zero primary key it is `Create`.  Otherwise the
`BeforeUpdate` hook runs and
`UPDATE users SET <every column> WHERE deleted_at IS NULL AND id = ?` is issued; when that
matches no row, GORM inserts the record with `Upsert`.  `fault 0` is the fate of the first
statement and `fault 1` that of the fallback insert. -/
def Save (fault : Nat → Option String) (now : Time) (db : DB) (user : User) :
    Option GoError × User × DB :=
  if user.ID = 0 then Create (fault 0) now db user
  else
    let user := user.BeforeUpdate now
    match fault 0 with
    | some msg => (some (.Storage msg), user, db)
    | none =>
      let hit := fun (r : User) => visible r && r.ID == user.ID
      if db.users.any hit then
        let others := db.users.filter (fun r => !hit r)
        if others.any (fun o => o.Username == user.Username) then
          (some (.Storage "duplicate key value violates unique constraint idx_users_username"),
            user, db)
        else if !fitsColumns user then
          (some (.Storage "value too long for type character varying"), user, db)
        else
          (none, user, { db with users := db.users.map (fun r => if hit r then user else r) })
      else Upsert (fault 1) now db user

/-- The statement `db.Delete(&models.User{}, id)` on a model with a `gorm.DeletedAt` field:
`UPDATE users SET deleted_at = now WHERE id = ? AND deleted_at IS NULL`.  GORM reports no
error when the statement matches no row. -/
def Delete (fault : Option String) (now : Time) (db : DB) (id : Nat) : Option GoError × DB :=
  match fault with
  | some msg => (some (.Storage msg), db)
  | none =>
    (none, { db with users := db.users.map (fun r =>
      if visible r && r.ID == id then { r with DeletedAt := some now } else r) })

/-- The query `db.Model(&models.User{}).Count(&total)`:
`SELECT count(*) FROM users WHERE deleted_at IS NULL`. -/
def Count (fault : Option String) (db : DB) : Except GoError Int :=
  match fault with
  | some msg => .error (.Storage msg)
  | none => .ok ((db.users.filter visible).length : Int)

/-- The query `db.Offset(offset).Limit(limit).Find(&users)`:
`SELECT * FROM users WHERE deleted_at IS NULL LIMIT limit OFFSET offset`; GORM writes the
`OFFSET` clause only for a positive offset and the `LIMIT` clause only for a limit that is
not negative. -/
def Find (fault : Option String) (db : DB) (offset limit : Int) : Except GoError (List User) :=
  match fault with
  | some msg => .error (.Storage msg)
  | none =>
    let rows := (db.users.filter visible).drop offset.toNat
    .ok (if 0 ≤ limit then rows.take limit.toNat else rows)

end gorm

/-! ## repositories -/

namespace userRepository

/-- The method `userRepository.Create`. -/
def Create (fault : Option String) (now : Time) (db : DB) (user : User) :
    Option GoError × User × DB :=
  gorm.Create fault now db user

/-- The method `userRepository.GetByID`. -/
def GetByID (fault : Option String) (db : DB) (id : Nat) : Except GoError User :=
  match gorm.First fault db (fun r => r.ID == id) with
  | .error err =>
    if err = .ErrRecordNotFound then .error (.New "user not found") else .error err
  | .ok user => .ok user

/-- The method `userRepository.GetByUsername`. -/
def GetByUsername (fault : Option String) (db : DB) (username : String) :
    Except GoError User :=
  match gorm.First fault db (fun r => r.Username == username) with
  | .error err =>
    if err = .ErrRecordNotFound then .error (.New "user not found") else .error err
  | .ok user => .ok user

/-- The method `userRepository.Update`. -/
def Update (fault : Nat → Option String) (now : Time) (db : DB) (user : User) :
    Option GoError × User × DB :=
  gorm.Save fault now db user

/-- The method `userRepository.Delete`. -/
def Delete (fault : Option String) (now : Time) (db : DB) (id : Nat) : Option GoError × DB :=
  gorm.Delete fault now db id

/-- The method `userRepository.List`; `fault 0` is the fate of the count and `fault 1`
that of the page query. -/
def List (fault : Nat → Option String) (db : DB) (offset limit : Int) :
    Except GoError (List User × Int) :=
  match gorm.Count (fault 0) db with
  | .error err => .error err
  | .ok total =>
    match gorm.Find (fault 1) db offset limit with
    | .error err => .error err
    | .ok users => .ok (users, total)

end userRepository

/-! ## services -/

/-- The two functions of `golang.org/x/crypto/bcrypt` that the service calls.  `salt` is
the randomness `GenerateFromPassword` draws; `CompareHashAndPassword` returns `none` (nil)
when the password matches the hash. -/
structure Bcrypt where
  GenerateFromPassword : (salt : Nat) → (password : String) → (cost : Nat) → Except GoError String
  CompareHashAndPassword : (hashedPassword : String) → (password : String) → Option GoError

/-- The constant `bcrypt.DefaultCost`. -/
def Bcrypt.DefaultCost : Nat := 10

/-- What a service call depends on besides the table and its arguments: the bcrypt
functions, the driver failure (if any) of the k-th SQL statement the call issues, the
current time and the salt that bcrypt draws. -/
structure Env where
  bcrypt : Bcrypt
  fault : Nat → Option String
  now : Time
  salt : Nat

/-- A call made by the service to one of its collaborators. -/
inductive Call where
  | GetByUsername (username : String)
  | GetByID (id : Nat)
  | Create (user : User)
  | Update (user : User)
  | Delete (id : Nat)
  | List (offset limit : Int)
  | GenerateFromPassword (password : String) (cost : Nat)
  | CompareHashAndPassword (hashedPassword password : String)
  deriving DecidableEq, Repr

/-- `validate.Struct(user)` of `go-playground/validator` on a `*models.User`: the validator
checks the rules written in `validate` struct tags.  `models.User` and `models.BaseModel`
carry `json` and `gorm` tags only, so no rule applies and the result is nil. -/
def validate_Struct (_user : User) : Option GoError := none

/-- Outcome of a service method that takes `user *models.User` and returns `error`: the
error, the struct behind the pointer after the call, the table after the call and the
calls to the repository and to bcrypt, in order. -/
structure Effect where
  err : Option GoError
  user : User
  db : DB
  calls : List Call

/-- Outcome of `DeleteUser`. -/
structure DeleteEffect where
  err : Option GoError
  db : DB
  calls : List Call

/-- Outcome of a service method that returns `(*models.User, error)`; such a method only
reads the table. -/
structure Lookup where
  result : Except GoError User
  calls : List Call

/-- Outcome of `ListUsers`. -/
structure Listing where
  result : Except GoError (List User × Int)
  calls : List Call

namespace userService

/-- The method `userService.CreateUser`. -/
def CreateUser (env : Env) (db : DB) (user : User) : Effect :=
  -- Validate user data
  match validate_Struct user with
  | some err => ⟨some err, user, db, []⟩
  | none =>
    -- Check if username already exists
    match userRepository.GetByUsername (env.fault 0) db user.Username with
    | .ok _existingUser =>
      ⟨some (.New "username already exists"), user, db, [.GetByUsername user.Username]⟩
    | .error _ =>
      -- Hash password
      match env.bcrypt.GenerateFromPassword env.salt user.Password Bcrypt.DefaultCost with
      | .error err =>
        ⟨some err, user, db,
          [.GetByUsername user.Username, .GenerateFromPassword user.Password Bcrypt.DefaultCost]⟩
      | .ok hashedPassword =>
        let hashed := { user with Password := hashedPassword }
        -- Create user
        let r := userRepository.Create (env.fault 1) env.now db hashed
        ⟨r.1, r.2.1, r.2.2,
          [.GetByUsername user.Username, .GenerateFromPassword user.Password Bcrypt.DefaultCost,
            .Create hashed]⟩

/-- The method `userService.GetUserByID`. -/
def GetUserByID (env : Env) (db : DB) (id : Nat) : Lookup :=
  ⟨userRepository.GetByID (env.fault 0) db id, [.GetByID id]⟩

/-- The method `userService.GetUserByUsername`. -/
def GetUserByUsername (env : Env) (db : DB) (username : String) : Lookup :=
  ⟨userRepository.GetByUsername (env.fault 0) db username, [.GetByUsername username]⟩

/-- The method `userService.UpdateUser`. -/
def UpdateUser (env : Env) (db : DB) (user : User) : Effect :=
  -- Validate user data
  match validate_Struct user with
  | some err => ⟨some err, user, db, []⟩
  | none =>
    -- Check if user exists
    match userRepository.GetByID (env.fault 0) db user.ID with
    | .error err => ⟨some err, user, db, [.GetByID user.ID]⟩
    | .ok existingUser =>
      -- If password is being updated, hash it
      if user.Password ≠ "" ∧ user.Password ≠ existingUser.Password then
        match env.bcrypt.GenerateFromPassword env.salt user.Password Bcrypt.DefaultCost with
        | .error err =>
          ⟨some err, user, db,
            [.GetByID user.ID, .GenerateFromPassword user.Password Bcrypt.DefaultCost]⟩
        | .ok hashedPassword =>
          let hashed := { user with Password := hashedPassword }
          let r := userRepository.Update (fun k => env.fault (k + 1)) env.now db hashed
          ⟨r.1, r.2.1, r.2.2,
            [.GetByID user.ID, .GenerateFromPassword user.Password Bcrypt.DefaultCost,
              .Update hashed]⟩
      else
        -- Keep existing password if not updated
        let kept := { user with Password := existingUser.Password }
        let r := userRepository.Update (fun k => env.fault (k + 1)) env.now db kept
        ⟨r.1, r.2.1, r.2.2, [.GetByID user.ID, .Update kept]⟩

/-- The method `userService.DeleteUser`. -/
def DeleteUser (env : Env) (db : DB) (id : Nat) : DeleteEffect :=
  let r := userRepository.Delete (env.fault 0) env.now db id
  ⟨r.1, r.2, [.Delete id]⟩

/-- The method `userService.ListUsers`. -/
def ListUsers (env : Env) (db : DB) (offset limit : Int) : Listing :=
  ⟨userRepository.List env.fault db offset limit, [.List offset limit]⟩

/-- The method `userService.AuthenticateUser`. -/
def AuthenticateUser (env : Env) (db : DB) (username password : String) : Lookup :=
  -- Get user by username
  match userRepository.GetByUsername (env.fault 0) db username with
  | .error _ => ⟨.error (.New "invalid credentials"), [.GetByUsername username]⟩
  | .ok user =>
    -- Check if user is active
    if !user.IsActive then
      ⟨.error (.New "user account is deactivated"), [.GetByUsername username]⟩
    else
      -- Verify password
      match env.bcrypt.CompareHashAndPassword user.Password password with
      | some _ =>
        ⟨.error (.New "invalid credentials"),
          [.GetByUsername username, .CompareHashAndPassword user.Password password]⟩
      | none =>
        ⟨.ok user, [.GetByUsername username, .CompareHashAndPassword user.Password password]⟩

end userService

/-! ## Sample data -/

/-- A stand-in for bcrypt with a readable hash: the hash of `p` is `p` behind a fixed
header.  It is used to exercise the service on concrete inputs. -/
def sampleBcrypt : Bcrypt where
  GenerateFromPassword := fun _ password _ => .ok ("$2a$10$" ++ password)
  CompareHashAndPassword := fun hashedPassword password =>
    if hashedPassword = "$2a$10$" ++ password then none
    else some (.Crypto "hashedPassword is not the hash of the given password")

/-- An environment in which no statement fails. -/
def sampleEnv : Env := ⟨sampleBcrypt, fun _ => none, 1000, 7⟩

/-- The empty table. -/
def emptyDB : DB := ⟨[], 0⟩

/-- The record submitted in the scenario of the specification. -/
def alice : User := ⟨0, 0, 0, none, "alice", "p@ss1234", "Alice", "A", true⟩

/-- The record submitted in the scenario of the specification, carrying a deletion
marker. -/
def aliceDeleted : User := { alice with DeletedAt := some 500 }

/-- The row stored for `alice` by `CreateUser` in `sampleEnv` on the empty table. -/
def aliceStored : User :=
  ⟨1, 1000, 1000, none, "alice", "$2a$10$p@ss1234", "Alice", "A", true⟩

/-- The table after `alice` has been created. -/
def aliceDB : DB := ⟨[aliceStored], 1⟩

/-- An update of the stored `alice` that changes the first name and leaves the password
field empty. -/
def aliceRenamed : User := { aliceStored with Password := "", FirstName := "Alicia" }

/-- An update of the stored `alice` that supplies a new plaintext password. -/
def aliceNewPassword : User := { aliceStored with Password := "n3w-secret" }

/-- A record whose key is not in `aliceDB`. -/
def stranger : User := { alice with ID := 42 }

/-- A stored account that has been deactivated. -/
def bob : User := ⟨1, 10, 10, none, "bob", "$2a$10$secret", "Bob", "B", false⟩

/-- A table that holds only the deactivated account. -/
def bobDB : DB := ⟨[bob], 1⟩

/-- The row that a successful `CreateUser` writes for `user` when bcrypt returned `hash`:
the password is the hash, the time stamps are those of the `BeforeCreate` hook, the active
flag is set and a zero primary key is replaced by the next value of the sequence. -/
def createdRow (env : Env) (db : DB) (user : User) (hash : String) : User :=
  { user with
    ID := if user.ID = 0 then db.users_id_seq + 1 else user.ID
    CreatedAt := env.now
    UpdatedAt := env.now
    Password := hash
    IsActive := true }

/-- The invariant that PostgreSQL and GORM keep for table `users`: primary keys are
pairwise distinct, and none is zero (GORM leaves a zero key to the serial sequence, which
starts at one). -/
def DB.Valid (db : DB) : Prop :=
  (db.users.map (fun r => r.ID)).Nodup ∧ ∀ r ∈ db.users, r.ID ≠ 0

instance (db : DB) : Decidable db.Valid := by
  unfold DB.Valid; exact inferInstance

/-- The password stored under primary key `id` is `password`: the table has a row with
that key, and the password column of every row with that key holds `password`. -/
def DB.StoresPassword (db : DB) (id : Nat) (password : String) : Prop :=
  (∃ r ∈ db.users, r.ID = id) ∧ ∀ r ∈ db.users, r.ID = id → r.Password = password

instance (db : DB) (id : Nat) (password : String) :
    Decidable (db.StoresPassword id password) := by
  unfold DB.StoresPassword; exact inferInstance

/-! ## strconv -/

namespace strconv

/-- The error `strconv.ErrSyntax`; the `*NumError` that wraps it is left out, the callers
test the error for nil only. -/
def ErrSyntax : GoError := .New "invalid syntax"

/-- The error `strconv.ErrRange`. -/
def ErrRange : GoError := .New "value out of range"

/-- The number written by a sequence of characters that is not empty and consists of the
digits `0` to `9`; `none` for any other sequence. -/
def digits (cs : List Char) : Option Nat :=
  if cs ≠ [] ∧ cs.all Char.isDigit = true then
    some (cs.foldl (fun n c => n * 10 + (c.toNat - 48)) 0)
  else none

/-- The function `strconv.Atoi` for a 64-bit `int`: an optional sign and decimal digits.
On a syntax error the value is 0; a number outside the range of `int` gives the nearest
bound together with a range error. -/
def Atoi (s : String) : Int × Option GoError :=
  let signed : Bool × List Char :=
    match s.toList with
    | '-' :: rest => (true, rest)
    | '+' :: rest => (false, rest)
    | cs => (false, cs)
  match digits signed.2 with
  | none => (0, some ErrSyntax)
  | some n =>
    if signed.1 then
      if n > 2 ^ 63 then (-(2 ^ 63), some ErrRange) else (-(n : Int), none)
    else
      if n ≥ 2 ^ 63 then (2 ^ 63 - 1, some ErrRange) else ((n : Int), none)

/-- The call `strconv.ParseUint(s, 10, 32)`: decimal digits without sign.  On a syntax
error the value is 0; a number of more than 32 bits gives the largest 32-bit value
together with a range error. -/
def ParseUint32 (s : String) : Nat × Option GoError :=
  match digits s.toList with
  | none => (0, some ErrSyntax)
  | some n => if n ≥ 2 ^ 32 then (2 ^ 32 - 1, some ErrRange) else (n, none)

end strconv

/-! ## utils -/

/-- JSON values as `encoding/json` writes them.  `time t` is the string that holds the
RFC 3339 text of the instant `t`. -/
inductive JSON where
  | null
  | bool (b : Bool)
  | number (n : Int)
  | string (s : String)
  | time (t : Time)
  | array (items : List JSON)
  | object (members : List (String × JSON))

/-- The JSON encoding of a `models.User`, as its `json` tags prescribe: the fields of the
embedded `BaseModel` come first, `Password` is tagged `json:"-"` and is not written, and a
`gorm.DeletedAt` that is not valid is written as `null`. -/
def User.MarshalJSON (u : User) : JSON :=
  .object [
    ("id", .number u.ID),
    ("created_at", .time u.CreatedAt),
    ("updated_at", .time u.UpdatedAt),
    ("deleted_at", match u.DeletedAt with
      | some t => .time t
      | none => .null),
    ("username", .string u.Username),
    ("first_name", .string u.FirstName),
    ("last_name", .string u.LastName),
    ("is_active", .bool u.IsActive)]

/-- The record with its password field blanked. -/
def User.redact (u : User) : User := { u with Password := "" }

/-- Go's `int` on a 64-bit platform: the value of an arithmetic result after it has
wrapped around into the range from `-2^63` to `2^63 - 1`. -/
def wrapInt (x : Int) : Int := (x + 2 ^ 63) % 2 ^ 64 - 2 ^ 63

namespace utils

/-- The struct `utils.Response`; `none` in `Data` and `Meta` is the nil interface, which
`omitempty` leaves out of the body. -/
structure Response where
  Success : Bool
  Message : String
  Data : Option JSON
  Error : String
  Meta : Option JSON

/-- What a handler sends: the HTTP status and the body. -/
structure Sent where
  status : Nat
  body : Response

/-- The function `utils.SuccessResponse`; the status stays at fiber's default, 200. -/
def SuccessResponse (message : String) (data : Option JSON) : Sent :=
  ⟨200, { Success := true, Message := message, Data := data, Error := "", Meta := none }⟩

/-- The function `utils.SuccessResponseWithMeta`. -/
def SuccessResponseWithMeta (message : String) (data : Option JSON) (meta : Option JSON) :
    Sent :=
  ⟨200, { Success := true, Message := message, Data := data, Error := "", Meta := meta }⟩

/-- The function `utils.ErrorResponse`. -/
def ErrorResponse (statusCode : Nat) (message : String) : Sent :=
  ⟨statusCode,
    { Success := false, Message := "", Data := none, Error := message, Meta := none }⟩

/-- The function `utils.PaginatedResponse`.  `total`, `page` and `limit` are Go `int`s; the
sum and the difference wrap around, the division truncates towards zero, and a zero
`limit` makes the division panic (`none`).  The keys of a `fiber.Map` are written in
sorted order. -/
def PaginatedResponse (message : String) (data : Option JSON) (total page limit : Int) :
    Option Sent :=
  if limit = 0 then none
  else
    let meta : JSON := .object [
      ("pagination", .object [
        ("limit", .number limit),
        ("page", .number page),
        ("pages", .number (wrapInt (Int.tdiv (wrapInt (wrapInt (total + limit) - 1)) limit))),
        ("total", .number total)])]
    some (SuccessResponseWithMeta message data (some meta))

end utils

/-! ## controllers -/

/-- The call `ctx.Query(key, defaultValue)` of fiber, given the raw value of the key in the
query string (empty when the key is absent): an empty value gives the default. -/
def ctx_Query (raw : String) (defaultValue : String) : String :=
  if raw = "" then defaultValue else raw

/-- The Go value that a handler hands to `utils.SuccessResponse` as `data`: a
`models.User` (or a pointer to one), or the `fiber.Map` of `ListUsers` with the page, the
total, the offset and the limit. -/
inductive Payload where
  | user (u : User)
  | page (users : List User) (total offset limit : Int)

/-- The JSON that `c.JSON` writes for a payload; the keys of a `fiber.Map` are written in
sorted order. -/
def Payload.MarshalJSON : Payload → JSON
  | .user u => u.MarshalJSON
  | .page users total offset limit => .object [
      ("limit", .number limit),
      ("offset", .number offset),
      ("total", .number total),
      ("users", .array (users.map User.MarshalJSON))]

/-- Outcome of a handler: what it sends, the table it leaves, the calls the service made to
the repository and to bcrypt, and the Go value it handed to `utils.SuccessResponse` as
`data` (`none` when that value is nil or an error is sent). -/
structure Reply where
  sent : utils.Sent
  db : DB
  calls : List Call
  data : Option Payload

namespace UserController

/-- The handler `UserController.CreateUser`.  `body` is what `ctx.BodyParser(&user)` makes
of the request body: an error, or the parsed record. -/
def CreateUser (env : Env) (db : DB) (body : Except GoError User) : Reply :=
  match body with
  | .error _ => ⟨utils.ErrorResponse 400 "Invalid request body", db, [], none⟩
  | .ok user =>
    -- Validate required fields
    if user.Username = "" ∨ user.Password = "" then
      ⟨utils.ErrorResponse 400 "Username and password are required", db, [], none⟩
    else
      -- Create user
      let e := userService.CreateUser env db user
      match e.err with
      | some err => ⟨utils.ErrorResponse 500 err.Error, e.db, e.calls, none⟩
      | none =>
        -- Don't return password in response
        let user := { e.user with Password := "" }
        ⟨utils.SuccessResponse "User created successfully" (some user.MarshalJSON),
          e.db, e.calls, some (.user user)⟩

/-- The handler `UserController.GetUser`; `idParam` is `ctx.Params("id")`. -/
def GetUser (env : Env) (db : DB) (idParam : String) : Reply :=
  match strconv.ParseUint32 idParam with
  | (_, some _) => ⟨utils.ErrorResponse 400 "Invalid user ID", db, [], none⟩
  | (id, none) =>
    let l := userService.GetUserByID env db id
    match l.result with
    | .error err =>
      if err.Error = "user not found" then
        ⟨utils.ErrorResponse 404 "User not found", db, l.calls, none⟩
      else ⟨utils.ErrorResponse 500 err.Error, db, l.calls, none⟩
    | .ok user =>
      ⟨utils.SuccessResponse "User retrieved successfully" (some user.MarshalJSON),
        db, l.calls, some (.user user)⟩

/-- The handler `UserController.UpdateUser`. -/
def UpdateUser (env : Env) (db : DB) (idParam : String) (body : Except GoError User) :
    Reply :=
  match strconv.ParseUint32 idParam with
  | (_, some _) => ⟨utils.ErrorResponse 400 "Invalid user ID", db, [], none⟩
  | (id, none) =>
    match body with
    | .error _ => ⟨utils.ErrorResponse 400 "Invalid request body", db, [], none⟩
    | .ok user =>
      let user := { user with ID := id }
      let e := userService.UpdateUser env db user
      match e.err with
      | some err =>
        if err.Error = "user not found" then
          ⟨utils.ErrorResponse 404 "User not found", e.db, e.calls, none⟩
        else ⟨utils.ErrorResponse 500 err.Error, e.db, e.calls, none⟩
      | none =>
        -- Don't return password in response
        let user := { e.user with Password := "" }
        ⟨utils.SuccessResponse "User updated successfully" (some user.MarshalJSON),
          e.db, e.calls, some (.user user)⟩

/-- The handler `UserController.DeleteUser`. -/
def DeleteUser (env : Env) (db : DB) (idParam : String) : Reply :=
  match strconv.ParseUint32 idParam with
  | (_, some _) => ⟨utils.ErrorResponse 400 "Invalid user ID", db, [], none⟩
  | (id, none) =>
    let e := userService.DeleteUser env db id
    match e.err with
    | some err =>
      if err.Error = "user not found" then
        ⟨utils.ErrorResponse 404 "User not found", e.db, e.calls, none⟩
      else ⟨utils.ErrorResponse 500 err.Error, e.db, e.calls, none⟩
    | none => ⟨utils.SuccessResponse "User deleted successfully" none, e.db, e.calls, none⟩

/-- The handler `UserController.ListUsers`; `offsetQuery` and `limitQuery` are the raw
values of the query keys `offset` and `limit`.  The errors of `strconv.Atoi` are dropped.
The keys of the `fiber.Map` are written in sorted order. -/
def ListUsers (env : Env) (db : DB) (offsetQuery limitQuery : String) : Reply :=
  let offset := (strconv.Atoi (ctx_Query offsetQuery "0")).1
  let limit := (strconv.Atoi (ctx_Query limitQuery "10")).1
  -- Validate pagination parameters
  let limit := if limit > 100 then 100 else limit
  let offset := if offset < 0 then 0 else offset
  let l := userService.ListUsers env db offset limit
  match l.result with
  | .error err => ⟨utils.ErrorResponse 500 err.Error, db, l.calls, none⟩
  | .ok (users, total) =>
    let response : JSON := .object [
      ("limit", .number limit),
      ("offset", .number offset),
      ("total", .number total),
      ("users", .array (users.map User.MarshalJSON))]
    ⟨utils.SuccessResponse "Users retrieved successfully" (some response), db, l.calls,
      some (.page users total offset limit)⟩

end UserController

/-! ## Storage failures, invariants and sequences of operations -/

/-- An environment in which the first statement of a call fails with a driver error. -/
def downEnv : Env :=
  ⟨sampleBcrypt, fun k => if k = 0 then some "connection refused" else none, 1000, 7⟩

/-- An environment in which the second statement of a call fails with a driver error. -/
def flakyEnv : Env :=
  ⟨sampleBcrypt, fun k => if k = 1 then some "connection refused" else none, 1000, 7⟩

/-- A record with an empty username. -/
def nameless : User := { alice with Username := "" }

/-- A record whose username has 101 characters. -/
def longNamed : User := { alice with Username := String.mk (List.replicate 101 'a') }

/-- An update of the stored `alice` as a request leaves it that names only the first name:
every other field but the key has its zero value. -/
def aliceSparse : User := ⟨1, 0, 0, none, "", "", "Alicia", "", false⟩

/-- The string `hash` is a value that `GenerateFromPassword` can return. -/
def Bcrypt.IsHash (bc : Bcrypt) (hash : String) : Prop :=
  ∃ salt password cost, bc.GenerateFromPassword salt password cost = .ok hash

/-- Every password column of the table holds a value that bcrypt can return. -/
def DB.Hashed (bc : Bcrypt) (db : DB) : Prop :=
  ∀ r ∈ db.users, bc.IsHash r.Password

/-- No two rows of the table that are not deleted have the same username. -/
def DB.UniqueUsernames (db : DB) : Prop :=
  db.users.Pairwise (fun a b =>
    ¬ (a.DeletedAt = none ∧ b.DeletedAt = none ∧ a.Username = b.Username))

instance (db : DB) : Decidable db.UniqueUsernames := by
  unfold DB.UniqueUsernames; exact inferInstance

/-- A call of one of the three service methods that write to the table, with what the call
depends on besides bcrypt and the table. -/
inductive Op where
  | CreateUser (fault : Nat → Option String) (now : Time) (salt : Nat) (user : User)
  | UpdateUser (fault : Nat → Option String) (now : Time) (salt : Nat) (user : User)
  | DeleteUser (fault : Nat → Option String) (now : Time) (id : Nat)

/-- The table that an operation leaves. -/
def Op.apply (bc : Bcrypt) (db : DB) : Op → DB
  | .CreateUser fault now salt user => (userService.CreateUser ⟨bc, fault, now, salt⟩ db user).db
  | .UpdateUser fault now salt user => (userService.UpdateUser ⟨bc, fault, now, salt⟩ db user).db
  | .DeleteUser fault now id => (userService.DeleteUser ⟨bc, fault, now, 0⟩ db id).db

/-- The table that a sequence of operations leaves. -/
def runOps (bc : Bcrypt) (db : DB) (ops : List Op) : DB :=
  ops.foldl (Op.apply bc) db

/-! ## Reading rows -/

theorem First_ok {fault : Option String} {db : DB} {cond : User → Bool} {r : User}
    (h : gorm.First fault db cond = .ok r) :
    fault = none ∧ r ∈ db.users ∧ r.DeletedAt = none ∧ cond r = true := by
  unfold gorm.First at h
  cases fault with
  | some msg => simp at h
  | none =>
    simp only at h
    split at h
    · next r' hr' =>
      have hmem : r' ∈ (db.users.filter (fun r => visible r && cond r)).insertionSort
          (fun a b => a.ID ≤ b.ID) := List.mem_of_mem_head? hr'
      rw [(List.perm_insertionSort _ _).mem_iff, List.mem_filter] at hmem
      simp only [visible, Bool.and_eq_true, Option.isNone_iff_eq_none] at hmem
      cases h
      exact ⟨rfl, hmem.1, hmem.2.1, hmem.2.2⟩
    · cases h

theorem First_error {db : DB} {cond : User → Bool} {e : GoError}
    (h : gorm.First none db cond = .error e) :
    e = .ErrRecordNotFound ∧ ∀ r ∈ db.users, r.DeletedAt = none → cond r = false := by
  unfold gorm.First at h
  simp only at h
  split at h
  · cases h
  · next hnone =>
    cases h
    refine ⟨rfl, ?_⟩
    rw [List.head?_eq_none_iff] at hnone
    have hnil : db.users.filter (fun r => visible r && cond r) = [] :=
      List.Perm.eq_nil (hnone ▸ (List.perm_insertionSort _ _).symm)
    intro r hr hdel
    have := List.filter_eq_nil_iff.mp hnil r hr
    simpa [visible, hdel] using this

theorem First_found {db : DB} (cond : User → Bool) {r : User}
    (hr : r ∈ db.users) (hdel : r.DeletedAt = none) (hc : cond r = true) :
    ∃ r', gorm.First none db cond = .ok r' := by
  cases hF : gorm.First none db cond with
  | ok r' => exact ⟨r', rfl⟩
  | error e =>
    have := (First_error hF).2 r hr hdel
    simp [hc] at this

theorem GetByUsername_ok {fault : Option String} {db : DB} {username : String} {r : User}
    (h : userRepository.GetByUsername fault db username = .ok r) :
    fault = none ∧ r ∈ db.users ∧ r.DeletedAt = none ∧ r.Username = username := by
  unfold userRepository.GetByUsername at h
  split at h
  · split at h <;> cases h
  · next user hF =>
    cases h
    have := First_ok hF
    simpa using this

theorem GetByUsername_found {db : DB} (username : String) {r : User}
    (hr : r ∈ db.users) (hdel : r.DeletedAt = none) (hn : r.Username = username) :
    ∃ r', userRepository.GetByUsername none db username = .ok r' := by
  obtain ⟨r', hr'⟩ := First_found (fun r => r.Username == username) hr hdel
    (by simp [hn])
  exact ⟨r', by simp [userRepository.GetByUsername, hr']⟩

theorem GetByUsername_absent {db : DB} {username : String}
    (h : ∀ r ∈ db.users, r.DeletedAt = none → r.Username ≠ username) :
    userRepository.GetByUsername none db username = .error (.New "user not found") := by
  cases hF : gorm.First none db (fun r => r.Username == username) with
  | ok r =>
    have := First_ok hF
    exact absurd (by simpa using this.2.2.2) (h r this.2.1 this.2.2.1)
  | error e =>
    have := (First_error hF).1
    subst this
    simp [userRepository.GetByUsername, hF]

theorem GetByID_ok {fault : Option String} {db : DB} {id : Nat} {r : User}
    (h : userRepository.GetByID fault db id = .ok r) :
    fault = none ∧ r ∈ db.users ∧ r.DeletedAt = none ∧ r.ID = id := by
  unfold userRepository.GetByID at h
  split at h
  · split at h <;> cases h
  · next user hF =>
    cases h
    have := First_ok hF
    simpa using this

theorem GetByID_absent {db : DB} {id : Nat}
    (h : ∀ r ∈ db.users, r.DeletedAt = none → r.ID ≠ id) :
    userRepository.GetByID none db id = .error (.New "user not found") := by
  cases hF : gorm.First none db (fun r => r.ID == id) with
  | ok r =>
    have := First_ok hF
    exact absurd (by simpa using this.2.2.2) (h r this.2.1 this.2.2.1)
  | error e =>
    have := (First_error hF).1
    subst this
    simp [userRepository.GetByID, hF]

/-! ## Writing rows -/

theorem constraintError_none {others : List User} {r : User}
    (h : constraintError others r = none) :
    (∀ o ∈ others, o.ID ≠ r.ID) ∧ (∀ o ∈ others, o.Username ≠ r.Username) ∧
      fitsColumns r = true := by
  unfold constraintError at h
  split at h
  · cases h
  · next h1 =>
    split at h
    · cases h
    · next h2 =>
      split at h
      · cases h
      · next h3 =>
        refine ⟨?_, ?_, by simpa using h3⟩
        · intro o ho; simpa using (by simpa using h1 : ∀ x ∈ others, ¬ x.ID = r.ID) o ho
        · intro o ho
          simpa using (by simpa using h2 : ∀ x ∈ others, ¬ x.Username = r.Username) o ho

/-- What a `CreateUser` that returns nil has done: the lookup reported an error, bcrypt
returned a hash, and the row `createdRow` passed the constraints and was appended. -/
theorem CreateUser_ok {env : Env} {db : DB} {user : User}
    (hok : (userService.CreateUser env db user).err = none) :
    ∃ hash,
      env.bcrypt.GenerateFromPassword env.salt user.Password Bcrypt.DefaultCost = .ok hash ∧
      constraintError db.users (createdRow env db user hash) = none ∧
      (userService.CreateUser env db user).user = createdRow env db user hash ∧
      (userService.CreateUser env db user).db.users =
        db.users ++ [createdRow env db user hash] := by
  unfold userService.CreateUser at hok ⊢
  simp only [validate_Struct] at hok ⊢
  split at hok
  · simp at hok
  · split at hok
    · simp at hok
    · next hash hgen =>
      refine ⟨hash, hgen, ?_⟩
      simp only [hgen]
      simp only [userRepository.Create, gorm.Create, User.BeforeCreate] at hok ⊢
      cases hf : env.fault 1 with
      | some msg => simp [hf] at hok
      | none =>
        simp only [hf] at hok ⊢
        split at hok
        · simp at hok
        · next hc =>
          have hid : (if user.ID = 0 then
                (if user.ID = 0 then db.users_id_seq + 1 else db.users_id_seq)
              else user.ID) = if user.ID = 0 then db.users_id_seq + 1 else user.ID := by
            split <;> rfl
          simp only [createdRow, hid] at hc ⊢
          exact ⟨hc, trivial, trivial⟩

theorem sampleBcrypt_differs (salt : Nat) (password : String) (cost : Nat) (hash : String)
    (h : sampleBcrypt.GenerateFromPassword salt password cost = .ok hash) :
    hash ≠ password := by
  simp only [sampleBcrypt, Except.ok.injEq] at h
  subst h
  intro heq
  have := congrArg String.length heq
  simp [String.length_append] at this
  exact absurd this (by decide)

theorem sampleBcrypt_verifies (salt : Nat) (password : String) (cost : Nat) (hash : String)
    (h : sampleBcrypt.GenerateFromPassword salt password cost = .ok hash) :
    sampleBcrypt.CompareHashAndPassword hash password = none := by
  simp only [sampleBcrypt, Except.ok.injEq] at h
  subst h
  simp [sampleBcrypt]

theorem Valid_unique {db : DB} (h : db.Valid) {a b : User} (ha : a ∈ db.users)
    (hb : b ∈ db.users) (hab : a.ID = b.ID) : a = b :=
  List.inj_on_of_nodup_map h.1 ha hb hab

theorem StoresPassword_of_GetByID {fault : Option String} {db : DB} {id : Nat}
    {existing : User} (hvalid : db.Valid)
    (h : userRepository.GetByID fault db id = .ok existing) :
    db.StoresPassword id existing.Password := by
  obtain ⟨_, hmem, _, hid⟩ := GetByID_ok h
  refine ⟨⟨existing, hmem, hid⟩, ?_⟩
  intro r hr hrid
  rw [Valid_unique hvalid hr hmem (hrid.trans hid.symm)]

theorem StoresPassword_map {db : DB} {id : Nat} {password : String} (f : User → User)
    (seq : Nat) (h : db.StoresPassword id password)
    (hf : ∀ r ∈ db.users, (f r).ID = r.ID ∧ (r.ID = id → (f r).Password = password)) :
    DB.StoresPassword ⟨db.users.map f, seq⟩ id password := by
  obtain ⟨⟨r0, hr0, hid0⟩, _⟩ := h
  refine ⟨⟨f r0, List.mem_map_of_mem f hr0, by rw [(hf r0 hr0).1, hid0]⟩, ?_⟩
  intro r hr hid
  obtain ⟨r1, hr1, rfl⟩ := List.mem_map.mp hr
  exact (hf r1 hr1).2 (by rw [← (hf r1 hr1).1, hid])

theorem StoresPassword_append {db : DB} {id : Nat} {password : String} (row : User)
    (seq : Nat) (h : db.StoresPassword id password)
    (hrow : row.ID = id → row.Password = password) :
    DB.StoresPassword ⟨db.users ++ [row], seq⟩ id password := by
  obtain ⟨⟨r0, hr0, hid0⟩, hall⟩ := h
  refine ⟨⟨r0, by simp [hr0], hid0⟩, ?_⟩
  intro r hr hid
  simp only [List.mem_append, List.mem_singleton] at hr
  rcases hr with hr | hr
  · exact hall r hr hid
  · subst hr; exact hrow hid

theorem Upsert_keeps_password {fault : Option String} {now : Time} {db : DB}
    {user : User} (h : db.StoresPassword user.ID user.Password) :
    (gorm.Upsert fault now db user).2.2.StoresPassword user.ID user.Password := by
  unfold gorm.Upsert
  cases fault with
  | some msg => exact h
  | none =>
    simp only
    by_cases hany : (db.users.any fun r => r.ID == user.ID) = true
    · rw [if_pos hany]
      split_ifs
      all_goals first
        | exact h
        | (apply StoresPassword_map _ _ h
           intro r _
           by_cases hr : r.ID = user.ID <;> simp [hr])
    · rw [if_neg hany]
      split
      · exact h
      · exact StoresPassword_append _ _ h (fun _ => rfl)

/-- Whatever `Save` does with a record whose password is the one stored under its key,
that password stays the one stored under the key. -/
theorem Save_keeps_password {fault : Nat → Option String} {now : Time} {db : DB}
    (user : User) (h : db.StoresPassword user.ID user.Password) :
    (gorm.Save fault now db user).2.2.StoresPassword user.ID user.Password := by
  unfold gorm.Save
  split
  · next hz =>
    unfold gorm.Create
    simp only [User.BeforeCreate]
    split
    · exact h
    · split
      · exact h
      · exact StoresPassword_append _ _ h (fun hid => by simp [hz] at hid)
  · next hnz =>
    simp only [User.BeforeUpdate]
    split
    · exact h
    · split
      · split
        · exact h
        · split
          · exact h
          · apply StoresPassword_map _ _ h
            intro r hrmem
            by_cases hr : (visible r && r.ID == user.ID) = true
            · rw [if_pos hr]
              simp only [Bool.and_eq_true, beq_iff_eq] at hr
              exact ⟨hr.2.symm, fun _ => rfl⟩
            · rw [if_neg hr]
              exact ⟨rfl, h.2 r hrmem⟩
      · exact Upsert_keeps_password h

/-- A `Save` that returns nil for a record whose nonzero key belongs to a row that is not
deleted has written the record, with the time stamp of the `BeforeUpdate` hook, over the
rows with that key that are not deleted. -/
theorem Save_hit {fault : Nat → Option String} {now : Time} {db : DB} {user : User}
    (hnz : user.ID ≠ 0) (hhit : ∃ r ∈ db.users, r.DeletedAt = none ∧ r.ID = user.ID)
    (hok : (gorm.Save fault now db user).1 = none) :
    (gorm.Save fault now db user).2.1 = user.BeforeUpdate now ∧
    (gorm.Save fault now db user).2.2.users = db.users.map (fun r =>
      if visible r && r.ID == user.ID then user.BeforeUpdate now else r) := by
  have hany : (db.users.any fun r => visible r && r.ID == (user.BeforeUpdate now).ID) = true := by
    obtain ⟨r, hr, hdel, hid⟩ := hhit
    rw [List.any_eq_true]
    exact ⟨r, hr, by simp [visible, hdel, hid, User.BeforeUpdate]⟩
  unfold gorm.Save at hok ⊢
  rw [if_neg hnz] at hok ⊢
  simp only at hok ⊢
  cases hf : fault 0 with
  | some msg => simp [hf] at hok
  | none =>
    simp only [hf] at hok ⊢
    rw [if_pos hany] at hok ⊢
    split_ifs at hok ⊢
    exact ⟨rfl, rfl⟩

theorem StoresPassword_replace {db : DB} {existing : User} (new : User) (seq : Nat)
    (hvalid : db.Valid) (hmem : existing ∈ db.users) (hlive : existing.DeletedAt = none)
    (hid : new.ID = existing.ID) :
    DB.StoresPassword
      ⟨db.users.map (fun r => if visible r && r.ID == existing.ID then new else r), seq⟩
      existing.ID new.Password := by
  have hhit : (visible existing && existing.ID == existing.ID) = true := by
    simp [visible, hlive]
  refine ⟨⟨new, ?_, hid⟩, ?_⟩
  · exact List.mem_map.mpr ⟨existing, hmem, by rw [if_pos hhit]⟩
  · intro r hr hrid
    obtain ⟨r1, hr1, rfl⟩ := List.mem_map.mp hr
    by_cases h1 : (visible r1 && r1.ID == existing.ID) = true
    · rw [if_pos h1]
    · rw [if_neg h1] at hrid ⊢
      rw [Valid_unique hvalid hr1 hmem hrid] at h1
      exact absurd hhit h1

/-- A repository `Update` that returns nil for a record with the key of an existing user
leaves the record's password as the one stored under that key, in the table and in the
caller's record. -/
theorem Update_ok {fault : Nat → Option String} {fault0 : Option String} {now : Time}
    {db : DB} (new : User) {existing : User} (hvalid : db.Valid)
    (hex : userRepository.GetByID fault0 db new.ID = .ok existing)
    (hok : (userRepository.Update fault now db new).1 = none) :
    (userRepository.Update fault now db new).2.2.StoresPassword new.ID new.Password ∧
    (userRepository.Update fault now db new).2.1.Password = new.Password := by
  obtain ⟨_, hmem, hlive, hid⟩ := GetByID_ok hex
  have hnz : new.ID ≠ 0 := hid ▸ hvalid.2 existing hmem
  obtain ⟨h1, h2⟩ := Save_hit hnz ⟨existing, hmem, hlive, hid⟩ hok
  unfold userRepository.Update
  refine ⟨?_, by rw [h1]; rfl⟩
  have := StoresPassword_replace (new.BeforeUpdate now)
    (gorm.Save fault now db new).2.2.users_id_seq hvalid hmem hlive hid.symm
  rw [hid, ← h2] at this
  exact this

/-- The body of `UpdateUser` once the record has passed validation and the lookup by key
has returned `existing`. -/
theorem UpdateUser_of_existing {env : Env} {db : DB} {user existing : User}
    (hex : userRepository.GetByID (env.fault 0) db user.ID = .ok existing) :
    userService.UpdateUser env db user =
      if user.Password ≠ "" ∧ user.Password ≠ existing.Password then
        match env.bcrypt.GenerateFromPassword env.salt user.Password Bcrypt.DefaultCost with
        | .error err =>
          ⟨some err, user, db,
            [.GetByID user.ID, .GenerateFromPassword user.Password Bcrypt.DefaultCost]⟩
        | .ok hashedPassword =>
          ⟨(userRepository.Update (fun k => env.fault (k + 1)) env.now db
              { user with Password := hashedPassword }).1,
            (userRepository.Update (fun k => env.fault (k + 1)) env.now db
              { user with Password := hashedPassword }).2.1,
            (userRepository.Update (fun k => env.fault (k + 1)) env.now db
              { user with Password := hashedPassword }).2.2,
            [.GetByID user.ID, .GenerateFromPassword user.Password Bcrypt.DefaultCost,
              .Update { user with Password := hashedPassword }]⟩
      else
        ⟨(userRepository.Update (fun k => env.fault (k + 1)) env.now db
            { user with Password := existing.Password }).1,
          (userRepository.Update (fun k => env.fault (k + 1)) env.now db
            { user with Password := existing.Password }).2.1,
          (userRepository.Update (fun k => env.fault (k + 1)) env.now db
            { user with Password := existing.Password }).2.2,
          [.GetByID user.ID, .Update { user with Password := existing.Password }]⟩ := by
  unfold userService.UpdateUser
  simp only [validate_Struct, hex]

/-- An `UpdateUser` whose password field is empty or equal to the password stored under
the record's key leaves that password stored under the key, whether it succeeds or not. -/
theorem UpdateUser_keeps_password {env : Env} {db : DB} {user : User} {password : String}
    (h : db.StoresPassword user.ID password)
    (hsame : user.Password = "" ∨ user.Password = password) :
    (userService.UpdateUser env db user).db.StoresPassword user.ID password := by
  cases hex : userRepository.GetByID (env.fault 0) db user.ID with
  | error err => simpa [userService.UpdateUser, validate_Struct, hex] using h
  | ok existing =>
    obtain ⟨_, hmem, _, hid⟩ := GetByID_ok hex
    have hpw : existing.Password = password := h.2 existing hmem hid
    have hcond : ¬ (user.Password ≠ "" ∧ user.Password ≠ existing.Password) := by
      rw [hpw]; rcases hsame with h1 | h1 <;> simp [h1]
    rw [UpdateUser_of_existing hex, if_neg hcond, hpw]
    exact Save_keeps_password { user with Password := password } h

/-- After a `CreateUser` that returned nil for a record without deletion marker, the
lookup of the submitted username finds the row that was written. -/
theorem GetByUsername_after_CreateUser {env : Env} {db : DB} {user : User}
    (hok : (userService.CreateUser env db user).err = none) (hlive : user.DeletedAt = none) :
    userRepository.GetByUsername none (userService.CreateUser env db user).db user.Username
      = .ok (userService.CreateUser env db user).user := by
  obtain ⟨hash, _, hc, huser, husers⟩ := CreateUser_ok hok
  have hrow : createdRow env db user hash ∈ (userService.CreateUser env db user).db.users := by
    rw [husers]; simp
  obtain ⟨r, hr⟩ := GetByUsername_found user.Username hrow hlive rfl
  have hr' := GetByUsername_ok hr
  rw [husers, List.mem_append, List.mem_singleton] at hr'
  rcases hr'.2.1 with hold | hnew
  · exact absurd hr'.2.2.2 ((constraintError_none hc).2.1 r hold)
  · rw [hr, hnew, huser]

/-! ## The invariant of the table -/

theorem Valid_map {db : DB} (f : User → User) (seq : Nat) (h : db.Valid)
    (hf : ∀ r ∈ db.users, (f r).ID = r.ID) : DB.Valid ⟨db.users.map f, seq⟩ := by
  have hids : (db.users.map f).map (fun r => r.ID) = db.users.map (fun r => r.ID) := by
    rw [List.map_map]
    exact List.map_congr_left (fun r hr => hf r hr)
  refine ⟨by simpa only [hids] using h.1, ?_⟩
  intro r hr
  obtain ⟨r0, hr0, rfl⟩ := List.mem_map.mp hr
  rw [hf r0 hr0]
  exact h.2 r0 hr0

theorem Valid_append {db : DB} (row : User) (seq : Nat) (h : db.Valid)
    (hnz : row.ID ≠ 0) (hc : constraintError db.users row = none) :
    DB.Valid ⟨db.users ++ [row], seq⟩ := by
  refine ⟨?_, ?_⟩
  · simp only [List.map_append, List.map_cons, List.map_nil]
    refine List.Nodup.append h.1 (List.nodup_singleton _) ?_
    intro x hx hx'
    obtain ⟨o, ho, rfl⟩ := List.mem_map.mp hx
    rw [List.mem_singleton] at hx'
    exact (constraintError_none hc).1 o ho hx'
  · intro r hr
    simp only [List.mem_append, List.mem_singleton] at hr
    rcases hr with hr | hr
    · exact h.2 r hr
    · subst hr; exact hnz

theorem Create_Valid {fault : Option String} {now : Time} {db : DB} {user : User}
    (h : db.Valid) : (gorm.Create fault now db user).2.2.Valid := by
  unfold gorm.Create
  simp only [User.BeforeCreate]
  split
  · exact h
  · split
    · exact h
    · next hc =>
      refine Valid_append _ _ h ?_ hc
      by_cases hz : user.ID = 0 <;> simp [hz]

theorem Delete_Valid {fault : Option String} {now : Time} {db : DB} {id : Nat}
    (h : db.Valid) : (gorm.Delete fault now db id).2.Valid := by
  unfold gorm.Delete
  split
  · exact h
  · apply Valid_map _ _ h
    intro r _
    split <;> rfl

theorem Save_Valid {fault : Nat → Option String} {now : Time} {db : DB} {user : User}
    (h : db.Valid) : (gorm.Save fault now db user).2.2.Valid := by
  unfold gorm.Save
  split
  · exact Create_Valid h
  · next hnz =>
    simp only [User.BeforeUpdate]
    split
    · exact h
    · split
      · split_ifs
        · exact h
        · exact h
        · apply Valid_map _ _ h
          intro r _
          by_cases hr : (visible r && r.ID == user.ID) = true
          · rw [if_pos hr]
            simp only [Bool.and_eq_true, beq_iff_eq] at hr
            exact hr.2.symm
          · rw [if_neg hr]
      · unfold gorm.Upsert
        simp only
        split
        · exact h
        · by_cases hany : (db.users.any fun r => r.ID == user.ID) = true
          · rw [if_pos hany]
            split_ifs
            all_goals first
              | exact h
              | (apply Valid_map _ _ h
                 intro r _
                 by_cases hr : r.ID = user.ID <;> simp [hr])
          · rw [if_neg hany]
            split
            · exact h
            · next hc => exact Valid_append _ _ h hnz hc

/-- The service keeps the invariant of the table. -/
theorem userService_Valid (env : Env) (db : DB) (user : User) (id : Nat) (h : db.Valid) :
    (userService.CreateUser env db user).db.Valid ∧
    (userService.UpdateUser env db user).db.Valid ∧
    (userService.DeleteUser env db id).db.Valid := by
  refine ⟨?_, ?_, Delete_Valid h⟩
  · unfold userService.CreateUser
    simp only [validate_Struct]
    split
    · exact h
    · split
      · exact h
      · exact Create_Valid h
  · unfold userService.UpdateUser
    simp only [validate_Struct]
    split
    · exact h
    · split
      · split
        · exact h
        · exact Save_Valid h
      · exact Save_Valid h

/-! ## Deleting and listing rows -/

theorem Delete_hides {now : Time} {db : DB} {id : Nat} :
    ∀ r ∈ (gorm.Delete none now db id).2.users, r.DeletedAt = none → r.ID ≠ id := by
  intro r hr hlive
  simp only [gorm.Delete, List.mem_map] at hr
  obtain ⟨r0, _, hr0⟩ := hr
  by_cases hhit : (visible r0 && r0.ID == id) = true
  · rw [if_pos hhit] at hr0
    subst hr0
    simp at hlive
  · rw [if_neg hhit] at hr0
    subst hr0
    intro hid
    exact hhit (by simp [visible, hlive, hid])

theorem List_ok {fault : Nat → Option String} {db : DB} {offset limit : Int}
    {users : List User} {total : Int}
    (h : userRepository.List fault db offset limit = .ok (users, total)) :
    total = ((db.users.filter visible).length : Int) ∧
    ∀ u ∈ users, u ∈ db.users ∧ u.DeletedAt = none := by
  unfold userRepository.List gorm.Count gorm.Find at h
  cases h0 : fault 0 with
  | some msg => simp [h0] at h
  | none =>
    cases h1 : fault 1 with
    | some msg => simp [h0, h1] at h
    | none =>
      simp only [h0, h1, Except.ok.injEq, Prod.mk.injEq] at h
      obtain ⟨hu, ht⟩ := h
      refine ⟨ht.symm, ?_⟩
      intro u hmem
      have hdrop : u ∈ (db.users.filter visible).drop offset.toNat := by
        rw [← hu] at hmem
        split at hmem
        · exact List.mem_of_mem_take hmem
        · exact hmem
      have := List.mem_filter.mp (List.mem_of_mem_drop hdrop)
      exact ⟨this.1, by simpa [visible] using this.2⟩

/-! ## CreateUser -/

/-- C1: when no row that is not deleted has the submitted username, bcrypt returns
`hash` for the submitted plaintext and the repository create of the hashed record returns
nil, `CreateUser` returns nil, exactly one row has been appended to the table, that row
carries the submitted username and `hash` as its password, the caller's record has become
that row (so the hash has replaced the plaintext there), and, bcrypt never returning its
input as the hash, the stored password differs from the submitted plaintext. -/
theorem CreateUser_stores_bcrypt_hash (env : Env) (db : DB) (user : User) (hash : String)
    (hdiffers : ∀ salt password cost hash,
      env.bcrypt.GenerateFromPassword salt password cost = .ok hash → hash ≠ password)
    (habsent : ∀ r ∈ db.users, r.DeletedAt = none → r.Username ≠ user.Username)
    (hhash : env.bcrypt.GenerateFromPassword env.salt user.Password Bcrypt.DefaultCost
      = .ok hash)
    (hcreate : (userRepository.Create (env.fault 1) env.now db
      { user with Password := hash }).1 = none) :
    (userService.CreateUser env db user).err = none ∧
    ∃ stored,
      (userService.CreateUser env db user).db.users = db.users ++ [stored] ∧
      stored.Username = user.Username ∧
      stored.Password = hash ∧
      stored.Password ≠ user.Password ∧
      (userService.CreateUser env db user).user = stored := by
  have hlookup : ∃ e, userRepository.GetByUsername (env.fault 0) db user.Username
      = .error e := by
    cases hf : env.fault 0 with
    | none => exact ⟨_, GetByUsername_absent habsent⟩
    | some msg => exact ⟨.Storage msg, by simp [userRepository.GetByUsername, gorm.First]⟩
  obtain ⟨e, he⟩ := hlookup
  have hok : (userService.CreateUser env db user).err = none := by
    simp only [userService.CreateUser, validate_Struct, he, hhash]
    exact hcreate
  obtain ⟨hash', hgen, _, huser, husers⟩ := CreateUser_ok hok
  have hh : hash' = hash := by
    rw [hhash] at hgen
    exact (Except.ok.inj hgen).symm
  subst hh
  exact ⟨hok, createdRow env db user hash', husers, rfl, rfl, hdiffers _ _ _ _ hhash, huser⟩

theorem CreateUser_stores_bcrypt_hash_witness :
    ((∀ salt password cost hash,
        sampleEnv.bcrypt.GenerateFromPassword salt password cost = .ok hash →
          hash ≠ password) ∧
      (∀ r ∈ emptyDB.users, r.DeletedAt = none → r.Username ≠ alice.Username) ∧
      sampleEnv.bcrypt.GenerateFromPassword sampleEnv.salt alice.Password Bcrypt.DefaultCost
        = .ok "$2a$10$p@ss1234" ∧
      (userRepository.Create (sampleEnv.fault 1) sampleEnv.now emptyDB
        { alice with Password := "$2a$10$p@ss1234" }).1 = none) ∧
    (userService.CreateUser sampleEnv emptyDB alice).err = none ∧
    ∃ stored,
      (userService.CreateUser sampleEnv emptyDB alice).db.users = emptyDB.users ++ [stored] ∧
      stored.Username = alice.Username ∧
      stored.Password = "$2a$10$p@ss1234" ∧
      stored.Password ≠ alice.Password ∧
      (userService.CreateUser sampleEnv emptyDB alice).user = stored :=
  ⟨⟨sampleBcrypt_differs, by decide, rfl, rfl⟩,
    CreateUser_stores_bcrypt_hash sampleEnv emptyDB alice "$2a$10$p@ss1234"
      sampleBcrypt_differs (by decide) rfl rfl⟩

/-- C2 fails on the code when the lookup itself fails: `aliceDB` holds a row that is not
deleted with the submitted username, the lookup statement fails with the driver error
`connection refused`, and `CreateUser` takes that for "no such user": it hashes the
password and calls the repository create, which the unique index of the table rejects.
The error is the driver error of the insert, not `username already exists`, a repository
create has been made, and the table is not as it was: a value of the key sequence has been
consumed. -/
theorem CreateUser_creates_when_lookup_fails :
    (aliceStored ∈ aliceDB.users ∧ aliceStored.DeletedAt = none ∧
      aliceStored.Username = alice.Username) ∧
    userRepository.GetByUsername (downEnv.fault 0) aliceDB alice.Username
      = .error (.Storage "connection refused") ∧
    (userService.CreateUser downEnv aliceDB alice).err
      = some (.Storage "duplicate key value violates unique constraint idx_users_username") ∧
    (userService.CreateUser downEnv aliceDB alice).calls
      = [.GetByUsername "alice", .GenerateFromPassword "p@ss1234" 10,
          .Create { alice with Password := "$2a$10$p@ss1234" }] ∧
    (userService.CreateUser downEnv aliceDB alice).db = ⟨[aliceStored], 2⟩ ∧
    (userService.CreateUser downEnv aliceDB alice).db ≠ aliceDB := by
  refine ⟨⟨by decide, rfl, rfl⟩, rfl, rfl, rfl, rfl, by decide⟩

/-- The conflict check of `CreateUser` when its lookup is answered: if the table holds a
row that is not deleted and has the submitted username, and the lookup statement is
answered by the database, `CreateUser` returns the error `username already exists`, its
only call is the lookup (no hash is computed and no repository create is made), and the
table and the caller's record are left as they were. -/
theorem CreateUser_username_conflict (env : Env) (db : DB) (user existing : User)
    (hfault : env.fault 0 = none)
    (hmem : existing ∈ db.users) (hlive : existing.DeletedAt = none)
    (hname : existing.Username = user.Username) :
    (userService.CreateUser env db user).err = some (.New "username already exists") ∧
    (userService.CreateUser env db user).calls = [.GetByUsername user.Username] ∧
    (userService.CreateUser env db user).db = db ∧
    (userService.CreateUser env db user).user = user := by
  obtain ⟨r, hr⟩ := GetByUsername_found user.Username hmem hlive hname
  simp [userService.CreateUser, validate_Struct, hfault, hr]

theorem CreateUser_username_conflict_witness :
    (sampleEnv.fault 0 = none ∧ aliceStored ∈ aliceDB.users ∧ aliceStored.DeletedAt = none ∧
      aliceStored.Username = alice.Username) ∧
    (userService.CreateUser sampleEnv aliceDB alice).err
      = some (.New "username already exists") ∧
    (userService.CreateUser sampleEnv aliceDB alice).calls = [.GetByUsername alice.Username] ∧
    (userService.CreateUser sampleEnv aliceDB alice).db = aliceDB ∧
    (userService.CreateUser sampleEnv aliceDB alice).user = alice :=
  ⟨⟨rfl, by simp [aliceDB], rfl, rfl⟩,
    CreateUser_username_conflict sampleEnv aliceDB alice aliceStored rfl
      (by simp [aliceDB]) rfl rfl⟩

/-! ## AuthenticateUser -/

/-- C3, as stated, fails for a deactivated account: in the table that holds the
deactivated `bob`, a wrong password for `bob` yields `user account is deactivated`, while
the unknown username `carol` yields `invalid credentials`. -/
theorem AuthenticateUser_reveals_deactivated_username :
    (userService.GetUserByUsername sampleEnv bobDB "bob").result = .ok bob ∧
    sampleEnv.bcrypt.CompareHashAndPassword bob.Password "wrong" ≠ none ∧
    (userService.GetUserByUsername sampleEnv bobDB "carol").result
      = .error (.New "user not found") ∧
    (userService.AuthenticateUser sampleEnv bobDB "bob" "wrong").result
      = .error (.New "user account is deactivated") ∧
    (userService.AuthenticateUser sampleEnv bobDB "carol" "wrong").result
      = .error (.New "invalid credentials") ∧
    (userService.AuthenticateUser sampleEnv bobDB "bob" "wrong").result
      ≠ (userService.AuthenticateUser sampleEnv bobDB "carol" "wrong").result := by
  refine ⟨rfl, by decide, rfl, rfl, rfl, by decide⟩

/-- C3, amended: for a username `u` that the repository finds with the active flag set, a
password `w` that bcrypt rejects for the stored hash, and a username `v` that the
repository does not find, `AuthenticateUser u w` and `AuthenticateUser v p` return the
same result for every `p`: no user record and the error `invalid credentials`. -/
theorem AuthenticateUser_active_indistinguishable (env : Env) (db : DB)
    (u w v p : String) (r : User)
    (hu : userRepository.GetByUsername (env.fault 0) db u = .ok r)
    (hactive : r.IsActive = true)
    (hwrong : env.bcrypt.CompareHashAndPassword r.Password w ≠ none)
    (hv : userRepository.GetByUsername (env.fault 0) db v = .error (.New "user not found")) :
    (userService.AuthenticateUser env db u w).result
      = (userService.AuthenticateUser env db v p).result ∧
    (userService.AuthenticateUser env db u w).result
      = .error (.New "invalid credentials") := by
  cases hc : env.bcrypt.CompareHashAndPassword r.Password w with
  | none => exact absurd hc hwrong
  | some e => simp [userService.AuthenticateUser, hu, hv, hactive, hc]

theorem AuthenticateUser_active_indistinguishable_witness :
    (userRepository.GetByUsername (sampleEnv.fault 0) aliceDB "alice" = .ok aliceStored ∧
      aliceStored.IsActive = true ∧
      sampleEnv.bcrypt.CompareHashAndPassword aliceStored.Password "wrong" ≠ none ∧
      userRepository.GetByUsername (sampleEnv.fault 0) aliceDB "carol"
        = .error (.New "user not found")) ∧
    (userService.AuthenticateUser sampleEnv aliceDB "alice" "wrong").result
      = (userService.AuthenticateUser sampleEnv aliceDB "carol" "p@ss1234").result ∧
    (userService.AuthenticateUser sampleEnv aliceDB "alice" "wrong").result
      = .error (.New "invalid credentials") :=
  ⟨⟨rfl, rfl, by decide, rfl⟩,
    AuthenticateUser_active_indistinguishable sampleEnv aliceDB "alice" "wrong" "carol"
      "p@ss1234" aliceStored rfl rfl (by decide) rfl⟩

/-- C5: when the repository finds the username and the record it returns has the active
flag cleared, `AuthenticateUser` returns no user record and the error
`user account is deactivated` for every supplied password and every bcrypt; its only call
is the lookup, so the password is not verified. -/
theorem AuthenticateUser_deactivated (env : Env) (db : DB) (username password : String)
    (r : User)
    (hfound : userRepository.GetByUsername (env.fault 0) db username = .ok r)
    (hinactive : r.IsActive = false) :
    (userService.AuthenticateUser env db username password).result
      = .error (.New "user account is deactivated") ∧
    (userService.AuthenticateUser env db username password).calls
      = [.GetByUsername username] := by
  unfold userService.AuthenticateUser
  rw [hfound]
  simp [hinactive]

theorem AuthenticateUser_deactivated_witness :
    (userRepository.GetByUsername (sampleEnv.fault 0) bobDB "bob" = .ok bob ∧
      bob.IsActive = false) ∧
    sampleEnv.bcrypt.CompareHashAndPassword bob.Password "secret" = none ∧
    (userService.AuthenticateUser sampleEnv bobDB "bob" "secret").result
      = .error (.New "user account is deactivated") ∧
    (userService.AuthenticateUser sampleEnv bobDB "bob" "secret").calls
      = [.GetByUsername "bob"] :=
  ⟨⟨rfl, rfl⟩, rfl, AuthenticateUser_deactivated sampleEnv bobDB "bob" "secret" bob rfl rfl⟩

/-- C6: for a table that satisfies the key invariant `DB.Valid` and a record whose key
belongs to an existing user, an `UpdateUser` whose password field is empty or equal to the
stored hash leaves the hash stored under that key as it was before, and a second such
update (of the table the first one left) leaves the same hash stored again. -/
theorem UpdateUser_without_password_change (env env' : Env) (db : DB)
    (user user' existing : User)
    (hvalid : db.Valid)
    (hex : userRepository.GetByID (env.fault 0) db user.ID = .ok existing)
    (hsame : user.Password = "" ∨ user.Password = existing.Password)
    (hid : user'.ID = user.ID)
    (hsame' : user'.Password = "" ∨ user'.Password = existing.Password) :
    db.StoresPassword user.ID existing.Password ∧
    (userService.UpdateUser env db user).db.StoresPassword user.ID existing.Password ∧
    (userService.UpdateUser env' (userService.UpdateUser env db user).db user').db.StoresPassword
      user.ID existing.Password := by
  have h0 := StoresPassword_of_GetByID hvalid hex
  have h1 : (userService.UpdateUser env db user).db.StoresPassword user.ID existing.Password :=
    UpdateUser_keeps_password h0 hsame
  refine ⟨h0, h1, ?_⟩
  rw [← hid] at h1 ⊢
  exact UpdateUser_keeps_password h1 hsame'

theorem UpdateUser_without_password_change_witness :
    aliceDB.Valid ∧
    userRepository.GetByID (sampleEnv.fault 0) aliceDB aliceRenamed.ID = .ok aliceStored ∧
    aliceDB.StoresPassword 1 "$2a$10$p@ss1234" ∧
    (userService.UpdateUser sampleEnv aliceDB aliceRenamed).err = none ∧
    (userService.UpdateUser sampleEnv aliceDB aliceRenamed).db.StoresPassword 1
      "$2a$10$p@ss1234" ∧
    (userService.UpdateUser sampleEnv
      (userService.UpdateUser sampleEnv aliceDB aliceRenamed).db aliceStored).db.StoresPassword 1
      "$2a$10$p@ss1234" :=
  have h := UpdateUser_without_password_change sampleEnv sampleEnv aliceDB aliceRenamed
    aliceStored aliceStored (by decide) rfl (Or.inl rfl) rfl (Or.inr rfl)
  ⟨by decide, rfl, h.1, rfl, h.2.1, h.2.2⟩

/-- C7, as stated, fails for the empty password: it differs from the stored hash, yet
`UpdateUser` does not store bcrypt's hash of it; it calls no hashing function and keeps the
old hash. -/
theorem UpdateUser_empty_password_not_hashed :
    userRepository.GetByID (sampleEnv.fault 0) aliceDB aliceRenamed.ID = .ok aliceStored ∧
    aliceRenamed.Password ≠ aliceStored.Password ∧
    sampleEnv.bcrypt.GenerateFromPassword sampleEnv.salt aliceRenamed.Password
      Bcrypt.DefaultCost = .ok "$2a$10$" ∧
    (userService.UpdateUser sampleEnv aliceDB aliceRenamed).err = none ∧
    (userService.UpdateUser sampleEnv aliceDB aliceRenamed).calls
      = [.GetByID 1, .Update { aliceRenamed with Password := aliceStored.Password }] ∧
    ¬ (userService.UpdateUser sampleEnv aliceDB aliceRenamed).db.StoresPassword 1 "$2a$10$" ∧
    (userService.UpdateUser sampleEnv aliceDB aliceRenamed).db.StoresPassword 1
      aliceStored.Password := by
  refine ⟨rfl, by decide, rfl, rfl, rfl, by decide, by decide⟩

/-- C7, amended: for a table that satisfies the key invariant `DB.Valid` and a record
whose key belongs to an existing user, an `UpdateUser` that returns nil leaves one password
stored under that key and in the caller's record: bcrypt's hash of the supplied password
when that password is not empty and differs from the stored hash, and the old hash when
the supplied password is empty or equal to the stored hash. -/
theorem UpdateUser_stored_password (env : Env) (db : DB) (user existing : User)
    (hvalid : db.Valid)
    (hex : userRepository.GetByID (env.fault 0) db user.ID = .ok existing)
    (hok : (userService.UpdateUser env db user).err = none) :
    ∃ stored,
      (userService.UpdateUser env db user).db.StoresPassword user.ID stored ∧
      (userService.UpdateUser env db user).user.Password = stored ∧
      if user.Password ≠ "" ∧ user.Password ≠ existing.Password then
        env.bcrypt.GenerateFromPassword env.salt user.Password Bcrypt.DefaultCost = .ok stored
      else stored = existing.Password := by
  rw [UpdateUser_of_existing hex] at hok ⊢
  by_cases hcond : user.Password ≠ "" ∧ user.Password ≠ existing.Password
  · simp only [if_pos hcond] at hok ⊢
    cases hgen : env.bcrypt.GenerateFromPassword env.salt user.Password Bcrypt.DefaultCost with
    | error err => simp [hgen] at hok
    | ok hash =>
      simp only [hgen] at hok ⊢
      have := Update_ok { user with Password := hash } hvalid hex hok
      exact ⟨hash, this.1, this.2, rfl⟩
  · simp only [if_neg hcond] at hok ⊢
    have := Update_ok { user with Password := existing.Password } hvalid hex hok
    exact ⟨existing.Password, this.1, this.2, rfl⟩

theorem UpdateUser_stored_password_witness :
    aliceDB.Valid ∧
    userRepository.GetByID (sampleEnv.fault 0) aliceDB aliceNewPassword.ID = .ok aliceStored ∧
    (userService.UpdateUser sampleEnv aliceDB aliceNewPassword).err = none ∧
    ∃ stored,
      (userService.UpdateUser sampleEnv aliceDB aliceNewPassword).db.StoresPassword
        aliceNewPassword.ID stored ∧
      (userService.UpdateUser sampleEnv aliceDB aliceNewPassword).user.Password = stored ∧
      if aliceNewPassword.Password ≠ "" ∧ aliceNewPassword.Password ≠ aliceStored.Password then
        sampleEnv.bcrypt.GenerateFromPassword sampleEnv.salt aliceNewPassword.Password
          Bcrypt.DefaultCost = .ok stored
      else stored = aliceStored.Password :=
  ⟨by decide, rfl, rfl,
    UpdateUser_stored_password sampleEnv aliceDB aliceNewPassword aliceStored (by decide) rfl rfl⟩

/-- C8: when no row that is not deleted has the record's key, and the lookup statement is
answered by the database, `UpdateUser` returns the error `user not found`, its only call
is the lookup (no hash is computed and no repository update is made), and the table and
the caller's record are left as they were. -/
theorem UpdateUser_not_found (env : Env) (db : DB) (user : User)
    (hfault : env.fault 0 = none)
    (habsent : ∀ r ∈ db.users, r.DeletedAt = none → r.ID ≠ user.ID) :
    (userService.UpdateUser env db user).err = some (.New "user not found") ∧
    (userService.UpdateUser env db user).calls = [.GetByID user.ID] ∧
    (userService.UpdateUser env db user).db = db ∧
    (userService.UpdateUser env db user).user = user := by
  have hget := GetByID_absent habsent
  simp [userService.UpdateUser, validate_Struct, hfault, hget]

theorem UpdateUser_not_found_witness :
    (sampleEnv.fault 0 = none ∧
      ∀ r ∈ aliceDB.users, r.DeletedAt = none → r.ID ≠ stranger.ID) ∧
    (userService.UpdateUser sampleEnv aliceDB stranger).err = some (.New "user not found") ∧
    (userService.UpdateUser sampleEnv aliceDB stranger).calls = [.GetByID stranger.ID] ∧
    (userService.UpdateUser sampleEnv aliceDB stranger).db = aliceDB ∧
    (userService.UpdateUser sampleEnv aliceDB stranger).user = stranger :=
  ⟨⟨rfl, by decide⟩, UpdateUser_not_found sampleEnv aliceDB stranger rfl (by decide)⟩

/-! ## DeleteUser -/

/-- C9: after a `DeleteUser id` that returned nil, `GetUserByID id` (its statement being
answered by the database) returns the error `user not found`, and no page that `ListUsers`
returns, whatever the offset and the limit, contains a record with key `id`. -/
theorem DeleteUser_then_not_found (env envGet envList : Env) (db : DB) (id : Nat)
    (hok : (userService.DeleteUser env db id).err = none)
    (hfault : envGet.fault 0 = none) :
    (userService.GetUserByID envGet (userService.DeleteUser env db id).db id).result
      = .error (.New "user not found") ∧
    ∀ offset limit users total,
      (userService.ListUsers envList (userService.DeleteUser env db id).db offset limit).result
        = .ok (users, total) →
      ∀ u ∈ users, u.ID ≠ id := by
  have hdb : (userService.DeleteUser env db id).db = (gorm.Delete none env.now db id).2 := by
    unfold userService.DeleteUser userRepository.Delete at hok ⊢
    cases hf : env.fault 0 with
    | some msg => simp [gorm.Delete, hf] at hok
    | none => rfl
  rw [hdb]
  constructor
  · simp only [userService.GetUserByID, hfault]
    exact GetByID_absent Delete_hides
  · intro offset limit users total hlist u hu
    obtain ⟨hmem, hlive⟩ := (List_ok hlist).2 u hu
    exact Delete_hides u hmem hlive

theorem DeleteUser_then_not_found_witness :
    (userService.GetUserByID sampleEnv aliceDB 1).result = .ok aliceStored ∧
    (userService.DeleteUser sampleEnv aliceDB 1).err = none ∧
    (userService.GetUserByID sampleEnv (userService.DeleteUser sampleEnv aliceDB 1).db 1).result
      = .error (.New "user not found") ∧
    (userService.ListUsers sampleEnv (userService.DeleteUser sampleEnv aliceDB 1).db 0 10).result
      = .ok ([], 0) :=
  ⟨rfl, rfl,
    (DeleteUser_then_not_found sampleEnv sampleEnv sampleEnv aliceDB 1 rfl rfl).1, rfl⟩

/-- C10 fails on the code: for the key 42, which no row of `aliceDB` has, `GetUserByID`
reports `user not found`, yet `DeleteUser` returns nil and leaves the table as it was. -/
theorem DeleteUser_missing_key_returns_nil :
    (∀ r ∈ aliceDB.users, r.DeletedAt = none → r.ID ≠ 42) ∧
    (userService.GetUserByID sampleEnv aliceDB 42).result = .error (.New "user not found") ∧
    (userService.DeleteUser sampleEnv aliceDB 42).err = none ∧
    (userService.DeleteUser sampleEnv aliceDB 42).db = aliceDB := by
  refine ⟨by decide, rfl, rfl, rfl⟩

/-! ## Storage failures -/

/-- C11, as stated, fails for the lookups of `AuthenticateUser` and `CreateUser`: when the
lookup statement fails with the driver error `connection refused`, `AuthenticateUser`
answers `invalid credentials`, and `CreateUser` goes on to hash the password and to create
the user, and returns nil. -/
theorem lookup_failure_not_surfaced :
    userRepository.GetByUsername (downEnv.fault 0) aliceDB "alice"
      = .error (.Storage "connection refused") ∧
    (userService.AuthenticateUser downEnv aliceDB "alice" "p@ss1234").result
      = .error (.New "invalid credentials") ∧
    userRepository.GetByUsername (downEnv.fault 0) emptyDB "alice"
      = .error (.Storage "connection refused") ∧
    (userService.CreateUser downEnv emptyDB alice).calls
      = [.GetByUsername "alice", .GenerateFromPassword "p@ss1234" 10,
          .Create { alice with Password := "$2a$10$p@ss1234" }] ∧
    (userService.CreateUser downEnv emptyDB alice).err = none ∧
    (userService.CreateUser downEnv emptyDB alice).db = aliceDB := by
  refine ⟨rfl, rfl, rfl, rfl, rfl, rfl⟩

/-- Driver errors: when the first statement of a call fails with the driver error `msg`,
`GetUserByID`, `GetUserByUsername`, `ListUsers`, `DeleteUser` and `UpdateUser` return that
error and leave the table as it was (`UpdateUser` making no further call), whereas
`AuthenticateUser` returns `invalid credentials`.  When the count of `ListUsers` is
answered and its page query fails, `ListUsers` returns that error.  When the second
statement fails, an `UpdateUser` that reaches its repository update and a `CreateUser`
that reaches its repository create return that error and leave the table as it was. -/
theorem driver_fault_surfaces (env : Env) (db : DB) (user : User) (id : Nat)
    (username password : String) (offset limit : Int) (msg : String) :
    (env.fault 0 = some msg →
      (userService.GetUserByID env db id).result = .error (.Storage msg) ∧
      (userService.GetUserByUsername env db username).result = .error (.Storage msg) ∧
      (userService.ListUsers env db offset limit).result = .error (.Storage msg) ∧
      (userService.DeleteUser env db id).err = some (.Storage msg) ∧
      (userService.DeleteUser env db id).db = db ∧
      (userService.UpdateUser env db user).err = some (.Storage msg) ∧
      (userService.UpdateUser env db user).db = db ∧
      (userService.UpdateUser env db user).calls = [.GetByID user.ID] ∧
      (userService.AuthenticateUser env db username password).result
        = .error (.New "invalid credentials")) ∧
    (env.fault 0 = none → env.fault 1 = some msg →
      (userService.ListUsers env db offset limit).result = .error (.Storage msg)) ∧
    (env.fault 1 = some msg →
      (∀ record, Call.Update record ∈ (userService.UpdateUser env db user).calls →
        (userService.UpdateUser env db user).err = some (.Storage msg) ∧
        (userService.UpdateUser env db user).db = db) ∧
      (∀ record, Call.Create record ∈ (userService.CreateUser env db user).calls →
        (userService.CreateUser env db user).err = some (.Storage msg) ∧
        (userService.CreateUser env db user).db = db)) := by
  refine ⟨?_, ?_, ?_⟩
  · intro h0
    simp [userService.GetUserByID, userService.GetUserByUsername, userService.ListUsers,
      userService.DeleteUser, userService.UpdateUser, userService.AuthenticateUser,
      userRepository.GetByID, userRepository.GetByUsername, userRepository.List,
      userRepository.Delete, gorm.First, gorm.Count, gorm.Delete, validate_Struct, h0]
  · intro h0 h1
    simp [userService.ListUsers, userRepository.List, gorm.Count, gorm.Find, h0, h1]
  · intro h1
    constructor
    · intro record hmem
      have hsave : ∀ u : User,
          (userRepository.Update (fun k => env.fault (k + 1)) env.now db u).1
            = some (.Storage msg) ∧
          (userRepository.Update (fun k => env.fault (k + 1)) env.now db u).2.2 = db := by
        intro u
        unfold userRepository.Update gorm.Save gorm.Create
        split <;> simp [h1]
      cases hex : userRepository.GetByID (env.fault 0) db user.ID with
      | error e => simp [userService.UpdateUser, validate_Struct, hex] at hmem
      | ok existing =>
        rw [UpdateUser_of_existing hex] at hmem ⊢
        by_cases hcond : user.Password ≠ "" ∧ user.Password ≠ existing.Password
        · simp only [if_pos hcond] at hmem ⊢
          cases hgen : env.bcrypt.GenerateFromPassword env.salt user.Password
              Bcrypt.DefaultCost with
          | error e => simp [hgen] at hmem
          | ok hash => simp only [hgen]; exact hsave _
        · simp only [if_neg hcond] at hmem ⊢
          exact hsave _
    · intro record hmem
      cases hget : userRepository.GetByUsername (env.fault 0) db user.Username with
      | ok existing => simp [userService.CreateUser, validate_Struct, hget] at hmem
      | error e =>
        cases hgen : env.bcrypt.GenerateFromPassword env.salt user.Password
            Bcrypt.DefaultCost with
        | error e' => simp [userService.CreateUser, validate_Struct, hget, hgen] at hmem
        | ok hash =>
          simp [userService.CreateUser, validate_Struct, hget, hgen, userRepository.Create,
            gorm.Create, h1]

/-- C11, amended: whatever error a repository call returns (a driver error, a rejected
constraint, or any other), `GetUserByID`, `GetUserByUsername`, `ListUsers` and `DeleteUser`
return the error of their one repository call; `UpdateUser` returns the error of its
lookup and makes no further call, and returns the error of its repository update, which is
its last call; `CreateUser` returns the error of its repository create, which is its last
call; in each case the table is the one the failed call left.  `AuthenticateUser` instead
answers every failed lookup with `invalid credentials`, after that one call. -/
theorem storage_failure_surfaces (env : Env) (db : DB) (user : User) (id : Nat)
    (username password : String) (offset limit : Int) (e : GoError) :
    (userRepository.GetByID (env.fault 0) db id = .error e →
      (userService.GetUserByID env db id).result = .error e ∧
      (userService.GetUserByID env db id).calls = [.GetByID id]) ∧
    (userRepository.GetByUsername (env.fault 0) db username = .error e →
      (userService.GetUserByUsername env db username).result = .error e ∧
      (userService.GetUserByUsername env db username).calls = [.GetByUsername username] ∧
      (userService.AuthenticateUser env db username password).result
        = .error (.New "invalid credentials") ∧
      (userService.AuthenticateUser env db username password).calls
        = [.GetByUsername username]) ∧
    (userRepository.List env.fault db offset limit = .error e →
      (userService.ListUsers env db offset limit).result = .error e ∧
      (userService.ListUsers env db offset limit).calls = [.List offset limit]) ∧
    ((userRepository.Delete (env.fault 0) env.now db id).1 = some e →
      (userService.DeleteUser env db id).err = some e ∧
      (userService.DeleteUser env db id).calls = [.Delete id] ∧
      (userService.DeleteUser env db id).db
        = (userRepository.Delete (env.fault 0) env.now db id).2) ∧
    (userRepository.GetByID (env.fault 0) db user.ID = .error e →
      (userService.UpdateUser env db user).err = some e ∧
      (userService.UpdateUser env db user).calls = [.GetByID user.ID] ∧
      (userService.UpdateUser env db user).db = db) ∧
    (∀ record, Call.Update record ∈ (userService.UpdateUser env db user).calls →
      (userRepository.Update (fun k => env.fault (k + 1)) env.now db record).1 = some e →
      (userService.UpdateUser env db user).err = some e ∧
      (userService.UpdateUser env db user).calls.getLast? = some (.Update record) ∧
      (userService.UpdateUser env db user).db
        = (userRepository.Update (fun k => env.fault (k + 1)) env.now db record).2.2) ∧
    (∀ record, Call.Create record ∈ (userService.CreateUser env db user).calls →
      (userRepository.Create (env.fault 1) env.now db record).1 = some e →
      (userService.CreateUser env db user).err = some e ∧
      (userService.CreateUser env db user).calls.getLast? = some (.Create record) ∧
      (userService.CreateUser env db user).db
        = (userRepository.Create (env.fault 1) env.now db record).2.2) := by
  refine ⟨?_, ?_, ?_, ?_, ?_, ?_, ?_⟩
  · intro h
    exact ⟨h, rfl⟩
  · intro h
    refine ⟨h, rfl, ?_, ?_⟩ <;> simp [userService.AuthenticateUser, h]
  · intro h
    exact ⟨h, rfl⟩
  · intro h
    exact ⟨h, rfl, rfl⟩
  · intro h
    simp [userService.UpdateUser, validate_Struct, h]
  · intro record hmem hfail
    cases hex : userRepository.GetByID (env.fault 0) db user.ID with
    | error e' => simp [userService.UpdateUser, validate_Struct, hex] at hmem
    | ok existing =>
      rw [UpdateUser_of_existing hex] at hmem ⊢
      by_cases hcond : user.Password ≠ "" ∧ user.Password ≠ existing.Password
      · simp only [if_pos hcond] at hmem ⊢
        cases hgen : env.bcrypt.GenerateFromPassword env.salt user.Password
            Bcrypt.DefaultCost with
        | error e' => simp [hgen] at hmem
        | ok hash =>
          simp only [hgen, List.mem_cons, List.mem_singleton, List.not_mem_nil,
            Call.Update.injEq, false_or, or_false, reduceCtorEq] at hmem
          subst hmem
          simp only [hgen]
          exact ⟨hfail, by simp, trivial⟩
      · simp only [if_neg hcond, List.mem_cons, List.mem_singleton, List.not_mem_nil,
          Call.Update.injEq, false_or, or_false, reduceCtorEq] at hmem
        subst hmem
        simp only [if_neg hcond]
        exact ⟨hfail, by simp, trivial⟩
  · intro record hmem hfail
    cases hget : userRepository.GetByUsername (env.fault 0) db user.Username with
    | ok existing => simp [userService.CreateUser, validate_Struct, hget] at hmem
    | error e' =>
      cases hgen : env.bcrypt.GenerateFromPassword env.salt user.Password
          Bcrypt.DefaultCost with
      | error e'' => simp [userService.CreateUser, validate_Struct, hget, hgen] at hmem
      | ok hash =>
        simp only [userService.CreateUser, validate_Struct, hget, hgen, List.mem_cons,
          List.mem_singleton, List.not_mem_nil, Call.Create.injEq, false_or, or_false,
          reduceCtorEq] at hmem ⊢
        subst hmem
        exact ⟨hfail, rfl, rfl⟩

theorem storage_failure_surfaces_witness :
    (userRepository.GetByID (downEnv.fault 0) aliceDB 1
        = .error (.Storage "connection refused") ∧
      Call.Create { longNamed with Password := "$2a$10$p@ss1234" }
        ∈ (userService.CreateUser sampleEnv emptyDB longNamed).calls ∧
      (userRepository.Create (sampleEnv.fault 1) sampleEnv.now emptyDB
          { longNamed with Password := "$2a$10$p@ss1234" }).1
        = some (.Storage "value too long for type character varying")) ∧
    (userService.GetUserByID downEnv aliceDB 1).result
      = .error (.Storage "connection refused") ∧
    (userService.CreateUser sampleEnv emptyDB longNamed).err
      = some (.Storage "value too long for type character varying") ∧
    (userService.CreateUser sampleEnv emptyDB longNamed).calls.getLast?
      = some (.Create { longNamed with Password := "$2a$10$p@ss1234" }) :=
  have hmem : Call.Create { longNamed with Password := "$2a$10$p@ss1234" }
      ∈ (userService.CreateUser sampleEnv emptyDB longNamed).calls := by decide
  have hfail : (userRepository.Create (sampleEnv.fault 1) sampleEnv.now emptyDB
      { longNamed with Password := "$2a$10$p@ss1234" }).1
        = some (.Storage "value too long for type character varying") := by decide
  have hdown := (storage_failure_surfaces downEnv aliceDB alice 1 "alice" "p@ss1234" 0 10
    (.Storage "connection refused")).1 rfl
  have hcreate := (storage_failure_surfaces sampleEnv emptyDB longNamed 1 "alice" "p@ss1234"
    0 10 (.Storage "value too long for type character varying")).2.2.2.2.2.2 _ hmem hfail
  ⟨⟨rfl, hmem, hfail⟩, hdown.1, hcreate.1, hcreate.2.1⟩

/-! ## Validation -/

/-- C12 fails on the code: `validate.Struct` finds no rule on `models.User`, so a record
with an empty username passes it, is looked up, hashed and stored, and `CreateUser` returns
nil; a record whose username has 101 characters is looked up and hashed as well, and is
rejected only by the database, with a driver error, which the handler `CreateUser` answers
with status 500. -/
theorem CreateUser_does_not_validate :
    (∀ user, validate_Struct user = none) ∧
    nameless.Username = "" ∧
    (userService.CreateUser sampleEnv emptyDB nameless).err = none ∧
    (userService.CreateUser sampleEnv emptyDB nameless).calls
      = [.GetByUsername "", .GenerateFromPassword "p@ss1234" 10,
          .Create { nameless with Password := "$2a$10$p@ss1234" }] ∧
    (userService.CreateUser sampleEnv emptyDB nameless).db.users
      = [{ aliceStored with Username := "" }] ∧
    longNamed.Username.length = 101 ∧
    (userService.CreateUser sampleEnv emptyDB longNamed).err
      = some (.Storage "value too long for type character varying") ∧
    (userService.CreateUser sampleEnv emptyDB longNamed).calls
      = [.GetByUsername longNamed.Username, .GenerateFromPassword "p@ss1234" 10,
          .Create { longNamed with Password := "$2a$10$p@ss1234" }] ∧
    (UserController.CreateUser sampleEnv emptyDB (.ok longNamed)).sent.status = 500 ∧
    (UserController.CreateUser sampleEnv emptyDB (.ok longNamed)).sent.body.Error
      = "value too long for type character varying" := by
  refine ⟨fun _ => rfl, rfl, rfl, rfl, rfl, by decide, by decide, by decide, by decide,
    by decide⟩

/-! ## ListUsers -/

/-- C14: when both statements of `ListUsers` are answered by the database, it returns a
page and a total; the total is the number of rows that are not deleted, whatever the
offset and the limit, and every record of the page is a row of the table that is not
deleted.  No call of `ListUsers` returns any other total. -/
theorem ListUsers_total (env : Env) (db : DB) (offset limit : Int)
    (hcount : env.fault 0 = none) (hpage : env.fault 1 = none) :
    (∃ users, (userService.ListUsers env db offset limit).result
      = .ok (users, ((db.users.filter (fun r => r.DeletedAt.isNone)).length : Int))) ∧
    ∀ env' offset' limit' users total,
      (userService.ListUsers env' db offset' limit').result = .ok (users, total) →
      total = ((db.users.filter (fun r => r.DeletedAt.isNone)).length : Int) ∧
      ∀ u ∈ users, u ∈ db.users ∧ u.DeletedAt = none := by
  constructor
  · refine ⟨if 0 ≤ limit then ((db.users.filter visible).drop offset.toNat).take limit.toNat
      else (db.users.filter visible).drop offset.toNat, ?_⟩
    simp only [userService.ListUsers, userRepository.List, gorm.Count, gorm.Find, hcount,
      hpage]
    rfl
  · intro env' offset' limit' users total h
    exact List_ok h

theorem ListUsers_total_witness :
    (sampleEnv.fault 0 = none ∧ sampleEnv.fault 1 = none) ∧
    (userService.ListUsers sampleEnv aliceDB 0 10).result = .ok ([aliceStored], 1) ∧
    (userService.ListUsers sampleEnv aliceDB 5 0).result = .ok ([], 1) ∧
    (userService.ListUsers sampleEnv (userService.DeleteUser sampleEnv aliceDB 1).db 0
      10).result = .ok ([], 0) ∧
    ∃ users, (userService.ListUsers sampleEnv aliceDB 0 10).result
      = .ok (users, ((aliceDB.users.filter (fun r => r.DeletedAt.isNone)).length : Int)) :=
  ⟨⟨rfl, rfl⟩, rfl, rfl, rfl, (ListUsers_total sampleEnv aliceDB 0 10 rfl rfl).1⟩

/-! ## Stored passwords are hashes -/

theorem Create_passwords (Q : String → Prop) {fault : Option String} {now : Time} {db : DB}
    {user : User} (hdb : ∀ r ∈ db.users, Q r.Password) (hu : Q user.Password) :
    ∀ r ∈ (gorm.Create fault now db user).2.2.users, Q r.Password := by
  unfold gorm.Create
  simp only [User.BeforeCreate]
  split
  · exact hdb
  · split
    · exact hdb
    · intro r hr
      simp only [List.mem_append, List.mem_singleton] at hr
      rcases hr with hr | hr
      · exact hdb r hr
      · subst hr; exact hu

theorem Upsert_passwords (Q : String → Prop) {fault : Option String} {now : Time} {db : DB}
    {user : User} (hdb : ∀ r ∈ db.users, Q r.Password) (hu : Q user.Password) :
    ∀ r ∈ (gorm.Upsert fault now db user).2.2.users, Q r.Password := by
  unfold gorm.Upsert
  cases fault with
  | some msg => exact hdb
  | none =>
    simp only
    by_cases hany : (db.users.any fun r => r.ID == user.ID) = true
    · rw [if_pos hany]
      split_ifs
      all_goals first
        | exact hdb
        | (intro r hr
           simp only [List.mem_map] at hr
           obtain ⟨r0, hr0, rfl⟩ := hr
           by_cases h0 : r0.ID = user.ID
           · simpa [h0] using hu
           · simpa [h0] using hdb r0 hr0)
    · rw [if_neg hany]
      split
      · exact hdb
      · intro r hr
        simp only [List.mem_append, List.mem_singleton] at hr
        rcases hr with hr | hr
        · exact hdb r hr
        · subst hr; exact hu

theorem Save_passwords (Q : String → Prop) {fault : Nat → Option String} {now : Time}
    {db : DB} {user : User} (hdb : ∀ r ∈ db.users, Q r.Password) (hu : Q user.Password) :
    ∀ r ∈ (gorm.Save fault now db user).2.2.users, Q r.Password := by
  unfold gorm.Save
  split
  · exact Create_passwords Q hdb hu
  · simp only [User.BeforeUpdate]
    split
    · exact hdb
    · split
      · split_ifs
        · exact hdb
        · exact hdb
        · intro r hr
          simp only [List.mem_map] at hr
          obtain ⟨r0, hr0, rfl⟩ := hr
          split
          · exact hu
          · exact hdb r0 hr0
      · exact Upsert_passwords Q hdb hu

theorem Delete_passwords (Q : String → Prop) {fault : Option String} {now : Time} {db : DB}
    {id : Nat} (hdb : ∀ r ∈ db.users, Q r.Password) :
    ∀ r ∈ (gorm.Delete fault now db id).2.users, Q r.Password := by
  unfold gorm.Delete
  split
  · exact hdb
  · intro r hr
    simp only [List.mem_map] at hr
    obtain ⟨r0, hr0, rfl⟩ := hr
    split
    · exact hdb r0 hr0
    · exact hdb r0 hr0

theorem CreateUser_Hashed {env : Env} {db : DB} {user : User} (h : db.Hashed env.bcrypt) :
    (userService.CreateUser env db user).db.Hashed env.bcrypt := by
  unfold userService.CreateUser
  simp only [validate_Struct]
  split
  · exact h
  · split
    · exact h
    · next hash hgen =>
      exact Create_passwords env.bcrypt.IsHash h ⟨_, _, _, hgen⟩

theorem UpdateUser_Hashed {env : Env} {db : DB} {user : User} (h : db.Hashed env.bcrypt) :
    (userService.UpdateUser env db user).db.Hashed env.bcrypt := by
  cases hex : userRepository.GetByID (env.fault 0) db user.ID with
  | error e => simpa [userService.UpdateUser, validate_Struct, hex] using h
  | ok existing =>
    rw [UpdateUser_of_existing hex]
    split
    · split
      · exact h
      · next hash hgen =>
        exact Save_passwords env.bcrypt.IsHash h ⟨_, _, _, hgen⟩
    · exact Save_passwords env.bcrypt.IsHash h (h existing (GetByID_ok hex).2.1)

theorem DeleteUser_Hashed {env : Env} {db : DB} {id : Nat} (h : db.Hashed env.bcrypt) :
    (userService.DeleteUser env db id).db.Hashed env.bcrypt :=
  Delete_passwords env.bcrypt.IsHash h

/-- C17: when every password stored in the table is a value that bcrypt can return, the
same holds for the table that `CreateUser`, `UpdateUser` and `DeleteUser` leave, whether
they succeed or not, and hence for the table that any sequence of these operations leaves;
in particular it holds for every table reached from the empty one. -/
theorem stored_passwords_are_hashes (bc : Bcrypt) (db : DB) (ops : List Op)
    (h : db.Hashed bc) :
    (runOps bc db ops).Hashed bc ∧ (runOps bc emptyDB ops).Hashed bc := by
  have step : ∀ (ops : List Op) (db : DB), db.Hashed bc → (runOps bc db ops).Hashed bc := by
    intro ops
    induction ops with
    | nil => intro db h; exact h
    | cons op ops ih =>
      intro db h
      simp only [runOps, List.foldl_cons]
      apply ih
      cases op with
      | CreateUser fault now salt user => exact CreateUser_Hashed h
      | UpdateUser fault now salt user => exact UpdateUser_Hashed h
      | DeleteUser fault now id => exact DeleteUser_Hashed h
  exact ⟨step ops db h, step ops emptyDB (fun r hr => by simp [emptyDB] at hr)⟩

theorem stored_passwords_are_hashes_witness :
    aliceDB.Hashed sampleBcrypt ∧
    runOps sampleBcrypt aliceDB
        [.UpdateUser sampleEnv.fault 2000 8 aliceNewPassword,
          .CreateUser sampleEnv.fault 3000 9 { alice with Username := "carol" },
          .DeleteUser sampleEnv.fault 4000 1]
      = ⟨[{ aliceStored with
              UpdatedAt := 2000, DeletedAt := some 4000, Password := "$2a$10$n3w-secret" },
          ⟨2, 3000, 3000, none, "carol", "$2a$10$p@ss1234", "Alice", "A", true⟩], 2⟩ ∧
    (runOps sampleBcrypt aliceDB
        [.UpdateUser sampleEnv.fault 2000 8 aliceNewPassword,
          .CreateUser sampleEnv.fault 3000 9 { alice with Username := "carol" },
          .DeleteUser sampleEnv.fault 4000 1]).Hashed sampleBcrypt :=
  have h : aliceDB.Hashed sampleBcrypt := by
    intro r hr
    simp only [aliceDB, List.mem_singleton] at hr
    subst hr
    exact ⟨7, "p@ss1234", 10, rfl⟩
  ⟨h, rfl, (stored_passwords_are_hashes sampleBcrypt aliceDB _ h).1⟩

/-! ## Usernames stay unique -/

theorem UniqueUsernames_map {db : DB} (f : User → User) (seq : Nat) (hvalid : db.Valid)
    (h : db.UniqueUsernames)
    (hf : ∀ a ∈ db.users, ∀ b ∈ db.users, a.ID ≠ b.ID →
      (f a).DeletedAt = none → (f b).DeletedAt = none → (f a).Username = (f b).Username →
      a.DeletedAt = none ∧ b.DeletedAt = none ∧ a.Username = b.Username) :
    DB.UniqueUsernames ⟨db.users.map f, seq⟩ := by
  unfold DB.UniqueUsernames
  rw [List.pairwise_map]
  have hid : db.users.Pairwise (fun a b => a.ID ≠ b.ID) := List.pairwise_map.mp hvalid.1
  refine (hid.and h).imp_of_mem ?_
  intro a b ha hb hab hcontra
  exact hab.2 (hf a ha b hb hab.1 hcontra.1 hcontra.2.1 hcontra.2.2)

theorem UniqueUsernames_append {db : DB} (row : User) (seq : Nat) (h : db.UniqueUsernames)
    (hc : constraintError db.users row = none) :
    DB.UniqueUsernames ⟨db.users ++ [row], seq⟩ := by
  unfold DB.UniqueUsernames
  rw [List.pairwise_append]
  refine ⟨h, List.pairwise_singleton _ _, ?_⟩
  intro a ha b hb hcontra
  rw [List.mem_singleton] at hb
  subst hb
  exact (constraintError_none hc).2.1 a ha hcontra.2.2

theorem Create_UniqueUsernames {fault : Option String} {now : Time} {db : DB} {user : User}
    (h : db.UniqueUsernames) : (gorm.Create fault now db user).2.2.UniqueUsernames := by
  unfold gorm.Create
  simp only [User.BeforeCreate]
  split
  · exact h
  · split
    · exact h
    · next hc => exact UniqueUsernames_append _ _ h hc

theorem Delete_UniqueUsernames {fault : Option String} {now : Time} {db : DB} {id : Nat}
    (hvalid : db.Valid) (h : db.UniqueUsernames) :
    (gorm.Delete fault now db id).2.UniqueUsernames := by
  unfold gorm.Delete
  split
  · exact h
  · apply UniqueUsernames_map _ _ hvalid h
    intro a _ b _ _ hda hdb hname
    by_cases hita : (visible a && a.ID == id) = true
    · simp [hita] at hda
    · by_cases hitb : (visible b && b.ID == id) = true
      · simp [hitb] at hdb
      · simp only [hita, hitb] at hda hdb hname
        exact ⟨hda, hdb, hname⟩

theorem replace_UniqueUsernames {db : DB} (hit : User → Bool) (new : User → User) (key : Nat)
    (username : String) (seq : Nat) (hvalid : db.Valid) (h : db.UniqueUsernames)
    (hkey : ∀ r, hit r = true → r.ID = key)
    (hnew : ∀ r, (new r).Username = username)
    (hothers : ((db.users.filter (fun r => !hit r)).any
      (fun o => o.Username == username)) = false) :
    DB.UniqueUsernames ⟨db.users.map (fun r => if hit r then new r else r), seq⟩ := by
  have hfree : ∀ r ∈ db.users, hit r = false → r.Username ≠ username := by
    intro r hr hnot
    have := List.any_eq_false.mp hothers r (List.mem_filter.mpr ⟨hr, by simp [hnot]⟩)
    simpa using this
  apply UniqueUsernames_map _ _ hvalid h
  intro a ha b hb hid hda hdb hname
  cases hita : hit a <;> cases hitb : hit b <;> simp only [hita, hitb] at hda hdb hname
  · exact ⟨hda, hdb, hname⟩
  · exact absurd (hname.trans (hnew b)) (hfree a ha hita)
  · exact absurd (hname.symm.trans (hnew a)) (hfree b hb hitb)
  · exact absurd ((hkey a hita).trans (hkey b hitb).symm) hid

theorem Save_UniqueUsernames {fault : Nat → Option String} {now : Time} {db : DB}
    {user : User} (hvalid : db.Valid) (h : db.UniqueUsernames) :
    (gorm.Save fault now db user).2.2.UniqueUsernames := by
  unfold gorm.Save
  split
  · exact Create_UniqueUsernames h
  · simp only [User.BeforeUpdate]
    split
    · exact h
    · split
      · split_ifs with h1 h2
        · exact h
        · exact h
        · exact replace_UniqueUsernames (fun r => visible r && r.ID == user.ID) _ user.ID
            user.Username _ hvalid h (fun r hr => by simpa using (by simpa using hr : _ ∧ _).2)
            (fun _ => rfl) (by simpa using h1)
      · unfold gorm.Upsert
        simp only
        split
        · exact h
        · by_cases hany : (db.users.any fun r => r.ID == user.ID) = true
          · rw [if_pos hany]
            split_ifs with h1 h2 h3 h4 h5
            all_goals first
              | exact h
              | exact replace_UniqueUsernames (fun r => r.ID == user.ID) _ user.ID
                  user.Username _ hvalid h (fun r hr => by simpa using hr) (fun _ => rfl)
                  (by simpa using h1)
          · rw [if_neg hany]
            split
            · exact h
            · next hc => exact UniqueUsernames_append _ _ h hc

/-- The operations of the service keep the key invariant and the uniqueness of the
usernames of the rows that are not deleted. -/
theorem Op_apply_invariant (bc : Bcrypt) (db : DB) (op : Op) (hvalid : db.Valid)
    (h : db.UniqueUsernames) :
    (op.apply bc db).Valid ∧ (op.apply bc db).UniqueUsernames := by
  cases op with
  | CreateUser fault now salt user =>
    refine ⟨(userService_Valid ⟨bc, fault, now, salt⟩ db user 0 hvalid).1, ?_⟩
    simp only [Op.apply, userService.CreateUser, validate_Struct]
    split
    · exact h
    · split
      · exact h
      · exact Create_UniqueUsernames h
  | UpdateUser fault now salt user =>
    refine ⟨(userService_Valid ⟨bc, fault, now, salt⟩ db user 0 hvalid).2.1, ?_⟩
    simp only [Op.apply, userService.UpdateUser, validate_Struct]
    split
    · exact h
    · split
      · split
        · exact h
        · exact Save_UniqueUsernames hvalid h
      · exact Save_UniqueUsernames hvalid h
  | DeleteUser fault now id =>
    exact ⟨(userService_Valid ⟨bc, fault, now, 0⟩ db alice id hvalid).2.2,
      Delete_UniqueUsernames hvalid h⟩

theorem runOps_invariant (bc : Bcrypt) (ops : List Op) :
    ∀ db : DB, db.Valid → db.UniqueUsernames →
      (runOps bc db ops).Valid ∧ (runOps bc db ops).UniqueUsernames := by
  induction ops with
  | nil => intro db hvalid h; exact ⟨hvalid, h⟩
  | cons op ops ih =>
    intro db hvalid h
    simp only [runOps, List.foldl_cons]
    have := Op_apply_invariant bc db op hvalid h
    exact ih _ this.1 this.2

theorem CreateUser_of_found {env : Env} {db : DB} {user found : User}
    (h : userRepository.GetByUsername (env.fault 0) db user.Username = .ok found) :
    (userService.CreateUser env db user).err = some (.New "username already exists") ∧
    (userService.CreateUser env db user).db = db := by
  simp [userService.CreateUser, validate_Struct, h]

/-- A repository `Update` that returns nil for a record with the key of an existing user
leaves the record, with the time stamp of the `BeforeUpdate` hook, as the only row with
that key, in the table and in the caller's record. -/
theorem Update_record {fault : Nat → Option String} {fault0 : Option String} {now : Time}
    {db : DB} (new : User) {existing : User} (hvalid : db.Valid)
    (hex : userRepository.GetByID fault0 db new.ID = .ok existing)
    (hok : (userRepository.Update fault now db new).1 = none) :
    (userRepository.Update fault now db new).2.1 = new.BeforeUpdate now ∧
    new.BeforeUpdate now ∈ (userRepository.Update fault now db new).2.2.users ∧
    ∀ r ∈ (userRepository.Update fault now db new).2.2.users,
      r.ID = new.ID → r = new.BeforeUpdate now := by
  obtain ⟨_, hmem, hlive, hid⟩ := GetByID_ok hex
  have hnz : new.ID ≠ 0 := hid ▸ hvalid.2 existing hmem
  obtain ⟨h1, h2⟩ := Save_hit hnz ⟨existing, hmem, hlive, hid⟩ hok
  unfold userRepository.Update
  have hhit : (visible existing && existing.ID == new.ID) = true := by
    simp [visible, hlive, hid]
  refine ⟨h1, ?_, ?_⟩
  · rw [h2]
    exact List.mem_map.mpr ⟨existing, hmem, by rw [if_pos hhit]⟩
  · intro r hr hrid
    rw [h2] at hr
    obtain ⟨r1, hr1, rfl⟩ := List.mem_map.mp hr
    by_cases hh : (visible r1 && r1.ID == new.ID) = true
    · rw [if_pos hh]
    · rw [if_neg hh] at hrid ⊢
      rw [Valid_unique hvalid hr1 hmem (hrid.trans hid.symm)] at hh
      exact absurd hhit hh

/-- C13: when `strconv.Atoi` reads `offset` and `limit` from the query, the handler
`ListUsers` makes one call to the repository, through the service, with the offset
`max offset 0` and the limit `min limit 100`; that limit is at most 100 and that offset is
not negative; and a successful response carries these two values next to the total and
the page that the service returned. -/
theorem ListUsers_clamps (env : Env) (db : DB) (offsetQuery limitQuery : String)
    (offset limit : Int)
    (hoffset : (strconv.Atoi (ctx_Query offsetQuery "0")).1 = offset)
    (hlimit : (strconv.Atoi (ctx_Query limitQuery "10")).1 = limit) :
    (UserController.ListUsers env db offsetQuery limitQuery).calls
      = [.List (max offset 0) (min limit 100)] ∧
    min limit 100 ≤ 100 ∧ 0 ≤ max offset 0 ∧
    ((UserController.ListUsers env db offsetQuery limitQuery).sent.body.Success = true →
      ∃ users total,
        (userService.ListUsers env db (max offset 0) (min limit 100)).result
          = .ok (users, total) ∧
        (UserController.ListUsers env db offsetQuery limitQuery).sent.body.Data
          = some (.object [
              ("limit", .number (min limit 100)),
              ("offset", .number (max offset 0)),
              ("total", .number total),
              ("users", .array (users.map User.MarshalJSON))])) := by
  have hl : (if limit > 100 then 100 else limit) = min limit 100 := by
    split <;> omega
  have ho : (if offset < 0 then 0 else offset) = max offset 0 := by
    split <;> omega
  unfold UserController.ListUsers
  simp only [hoffset, hlimit, hl, ho]
  refine ⟨?_, by omega, by omega, ?_⟩
  · cases (userService.ListUsers env db (max offset 0) (min limit 100)).result <;> rfl
  · cases hres : (userService.ListUsers env db (max offset 0) (min limit 100)).result with
    | error e => simp [utils.ErrorResponse]
    | ok page => intro _; exact ⟨page.1, page.2, rfl, rfl⟩

theorem ListUsers_clamps_witness :
    ((strconv.Atoi (ctx_Query "-5" "0")).1 = -5 ∧ (strconv.Atoi (ctx_Query "500" "10")).1 = 500 ∧
      (strconv.Atoi (ctx_Query "" "10")).1 = 10) ∧
    (UserController.ListUsers sampleEnv aliceDB "-5" "500").calls = [.List 0 100] ∧
    (UserController.ListUsers sampleEnv aliceDB "-5" "500").sent.body.Data
      = some (.object [
          ("limit", .number 100),
          ("offset", .number 0),
          ("total", .number 1),
          ("users", .array [aliceStored.MarshalJSON])]) ∧
    (UserController.ListUsers sampleEnv aliceDB "-5" "500").calls
      = [.List (max (-5) 0) (min 500 100)] :=
  ⟨⟨rfl, rfl, rfl⟩, rfl, rfl,
    (ListUsers_clamps sampleEnv aliceDB "-5" "500" (-5) 500 rfl rfl).1⟩

/-- The caller's record after an `UpdateUser` that returned nil on a table that satisfies
the key invariant: the supplied record with the time stamp of the update, and whatever
password the service put there. -/
theorem UpdateUser_ok_user {env : Env} {db : DB} {user : User} (hvalid : db.Valid)
    (hok : (userService.UpdateUser env db user).err = none) :
    (userService.UpdateUser env db user).user
      = { user with
          UpdatedAt := env.now
          Password := (userService.UpdateUser env db user).user.Password } := by
  cases hex : userRepository.GetByID (env.fault 0) db user.ID with
  | error e => simp [userService.UpdateUser, validate_Struct, hex] at hok
  | ok existing =>
    rw [UpdateUser_of_existing hex] at hok ⊢
    by_cases hcond : user.Password ≠ "" ∧ user.Password ≠ existing.Password
    · simp only [if_pos hcond] at hok ⊢
      cases hgen : env.bcrypt.GenerateFromPassword env.salt user.Password
          Bcrypt.DefaultCost with
      | error err => simp [hgen] at hok
      | ok hash =>
        simp only [hgen] at hok ⊢
        rw [(Update_record { user with Password := hash } hvalid hex hok).1]
        rfl
    · simp only [if_neg hcond] at hok ⊢
      rw [(Update_record { user with Password := existing.Password } hvalid hex hok).1]
      rfl

/-- C16: the JSON written for a user record has the members `id`, `created_at`,
`updated_at`, `deleted_at`, `username`, `first_name`, `last_name` and `is_active`, each
holding the field of that name, and no member for the password; the JSON written for a
page holds the paging values and the JSON of its records.  The `data` of the response of
every handler is the JSON of the value the handler handed over.  On success `CreateUser`
and `UpdateUser` hand over the record the service left with its password field blanked;
that is, for `CreateUser`, the submitted record without its password, with the key and the
time stamps of the insert and the active flag set, and, for `UpdateUser` on a table that
satisfies the key invariant, the submitted record without its password, with the key of
the path and the time stamp of the update.  On success `GetUser` hands over a row of the
table and `ListUsers` a page of rows of the table. -/
theorem responses_carry_no_password (env : Env) (db : DB) (body : Except GoError User)
    (idParam offsetQuery limitQuery : String) :
    (∀ u : User, Payload.MarshalJSON (.user u) = .object [
        ("id", .number u.ID),
        ("created_at", .time u.CreatedAt),
        ("updated_at", .time u.UpdatedAt),
        ("deleted_at", match u.DeletedAt with
          | some t => .time t
          | none => .null),
        ("username", .string u.Username),
        ("first_name", .string u.FirstName),
        ("last_name", .string u.LastName),
        ("is_active", .bool u.IsActive)]) ∧
    (∀ (users : List User) (total offset limit : Int),
      Payload.MarshalJSON (.page users total offset limit) = .object [
        ("limit", .number limit),
        ("offset", .number offset),
        ("total", .number total),
        ("users", .array (users.map (fun u => Payload.MarshalJSON (.user u))))]) ∧
    ((UserController.CreateUser env db body).sent.body.Data
        = (UserController.CreateUser env db body).data.map Payload.MarshalJSON ∧
      (UserController.UpdateUser env db idParam body).sent.body.Data
        = (UserController.UpdateUser env db idParam body).data.map Payload.MarshalJSON ∧
      (UserController.GetUser env db idParam).sent.body.Data
        = (UserController.GetUser env db idParam).data.map Payload.MarshalJSON ∧
      (UserController.ListUsers env db offsetQuery limitQuery).sent.body.Data
        = (UserController.ListUsers env db offsetQuery limitQuery).data.map
            Payload.MarshalJSON) ∧
    ((UserController.CreateUser env db body).sent.body.Success = true →
      ∃ user, body = .ok user ∧
        (UserController.CreateUser env db body).data
          = some (.user { (userService.CreateUser env db user).user with Password := "" }) ∧
        (UserController.CreateUser env db body).data
          = some (.user (createdRow env db user.redact ""))) ∧
    ((UserController.UpdateUser env db idParam body).sent.body.Success = true →
      ∃ user, body = .ok user ∧
        (UserController.UpdateUser env db idParam body).data
          = some (.user { (userService.UpdateUser env db
              { user with ID := (strconv.ParseUint32 idParam).1 }).user with
              Password := "" }) ∧
        (db.Valid →
          (UserController.UpdateUser env db idParam body).data
            = some (.user { user.redact with
                ID := (strconv.ParseUint32 idParam).1
                UpdatedAt := env.now }))) ∧
    ((UserController.GetUser env db idParam).sent.body.Success = true →
      ∃ row, row ∈ db.users ∧
        (UserController.GetUser env db idParam).data = some (.user row)) ∧
    ((UserController.ListUsers env db offsetQuery limitQuery).sent.body.Success = true →
      ∃ (users : List User) (total offset limit : Int),
        (∀ u ∈ users, u ∈ db.users) ∧
        (UserController.ListUsers env db offsetQuery limitQuery).data
          = some (.page users total offset limit)) := by
  refine ⟨fun _ => rfl, fun _ _ _ _ => rfl, ⟨?_, ?_, ?_, ?_⟩, ?_, ?_, ?_, ?_⟩
  · unfold UserController.CreateUser
    cases body with
    | error e => rfl
    | ok user =>
      simp only
      split_ifs
      · rfl
      · cases (userService.CreateUser env db user).err <;> rfl
  · unfold UserController.UpdateUser
    rcases strconv.ParseUint32 idParam with ⟨id, _ | perr⟩
    · cases body with
      | error e => rfl
      | ok user =>
        simp only
        cases (userService.UpdateUser env db { user with ID := id }).err with
        | none => rfl
        | some err => simp only; split_ifs <;> rfl
    · rfl
  · unfold UserController.GetUser
    rcases strconv.ParseUint32 idParam with ⟨id, _ | perr⟩
    · simp only
      cases (userService.GetUserByID env db id).result with
      | error e => simp only; split_ifs <;> rfl
      | ok user => rfl
    · rfl
  · unfold UserController.ListUsers
    simp only
    split <;> rfl
  · intro h
    unfold UserController.CreateUser at h ⊢
    cases body with
    | error e => simp [utils.ErrorResponse] at h
    | ok user =>
      simp only at h ⊢
      split_ifs at h ⊢ with hreq
      · simp [utils.ErrorResponse] at h
      · cases herr : (userService.CreateUser env db user).err with
        | some err => simp [herr, utils.ErrorResponse] at h
        | none =>
          obtain ⟨hash, _, _, huser, _⟩ := CreateUser_ok herr
          refine ⟨user, rfl, rfl, ?_⟩
          simp only [huser]
          rfl
  · intro h
    unfold UserController.UpdateUser at h ⊢
    rcases hid : strconv.ParseUint32 idParam with ⟨id, _ | perr⟩
    · cases body with
      | error e => simp [hid, utils.ErrorResponse] at h
      | ok user =>
        simp only [hid] at h ⊢
        cases herr : (userService.UpdateUser env db { user with ID := id }).err with
        | some err =>
          simp only [herr] at h
          split_ifs at h <;> simp [utils.ErrorResponse] at h
        | none =>
          refine ⟨user, rfl, rfl, ?_⟩
          intro hvalid
          simp only
          rw [UpdateUser_ok_user hvalid herr]
          rfl
    · simp [hid, utils.ErrorResponse] at h
  · intro h
    unfold UserController.GetUser at h ⊢
    rcases hid : strconv.ParseUint32 idParam with ⟨id, _ | perr⟩
    · simp only [hid] at h ⊢
      cases hres : (userService.GetUserByID env db id).result with
      | error e =>
        simp only [hres] at h
        split_ifs at h <;> simp [utils.ErrorResponse] at h
      | ok user => exact ⟨user, (GetByID_ok hres).2.1, rfl⟩
    · simp [hid, utils.ErrorResponse] at h
  · intro h
    unfold UserController.ListUsers at h ⊢
    simp only at h ⊢
    split at h
    · simp [utils.ErrorResponse] at h
    · next users total hres =>
      exact ⟨users, total, _, _, fun u hu => ((List_ok hres).2 u hu).1, rfl⟩

theorem responses_carry_no_password_witness :
    ((UserController.CreateUser sampleEnv emptyDB (.ok alice)).sent.body.Success = true ∧
      (UserController.UpdateUser sampleEnv aliceDB "1" (.ok aliceNewPassword)).sent.body.Success
        = true ∧
      aliceDB.Valid) ∧
    (userService.CreateUser sampleEnv emptyDB alice).user.Password = "$2a$10$p@ss1234" ∧
    (UserController.CreateUser sampleEnv emptyDB (.ok alice)).data
      = some (.user ⟨1, 1000, 1000, none, "alice", "", "Alice", "A", true⟩) ∧
    (UserController.CreateUser sampleEnv emptyDB (.ok alice)).sent.body.Data
      = some (.object [
          ("id", .number 1),
          ("created_at", .time 1000),
          ("updated_at", .time 1000),
          ("deleted_at", .null),
          ("username", .string "alice"),
          ("first_name", .string "Alice"),
          ("last_name", .string "A"),
          ("is_active", .bool true)]) ∧
    (userService.UpdateUser sampleEnv aliceDB aliceNewPassword).user.Password
      = "$2a$10$n3w-secret" ∧
    (UserController.UpdateUser sampleEnv aliceDB "1" (.ok aliceNewPassword)).data
      = some (.user ⟨1, 1000, 1000, none, "alice", "", "Alice", "A", true⟩) ∧
    (∃ user, (.ok alice : Except GoError User) = .ok user ∧
      (UserController.CreateUser sampleEnv emptyDB (.ok alice)).data
        = some (.user { (userService.CreateUser sampleEnv emptyDB user).user with
            Password := "" }) ∧
      (UserController.CreateUser sampleEnv emptyDB (.ok alice)).data
        = some (.user (createdRow sampleEnv emptyDB user.redact ""))) :=
  ⟨⟨rfl, rfl, by decide⟩, rfl, rfl, rfl, rfl, rfl,
    (responses_carry_no_password sampleEnv emptyDB (.ok alice) "1" "0" "10").2.2.2.1 rfl⟩

/-! ## Pagination -/

theorem wrapInt_of_fits {x : Int} (hlo : -(2 ^ 63) ≤ x) (hhi : x < 2 ^ 63) : wrapInt x = x := by
  unfold wrapInt
  omega

theorem wrapInt_sub_one (x : Int) : wrapInt (wrapInt x - 1) = wrapInt (x - 1) := by
  unfold wrapInt
  omega

/-- C15, as stated, fails when `total + limit - 1` does not fit Go's `int`: for the largest
`int` as total and the limit 2 the sum wraps around, and the page count in the meta object
is negative, whereas the ceiling of `total / limit` is `2^62`. -/
theorem PaginatedResponse_pages_overflow :
    (0 : Int) ≤ 9223372036854775807 ∧ (1 : Int) ≤ 2 ∧
    (9223372036854775807 : Int) = 2 ^ 63 - 1 ∧
    utils.PaginatedResponse "Users" none 9223372036854775807 1 2
      = some ⟨200, {
          Success := true, Message := "Users", Data := none, Error := "",
          Meta := some (.object [
            ("pagination", .object [
              ("limit", .number 2),
              ("page", .number 1),
              ("pages", .number (-4611686018427387904)),
              ("total", .number 9223372036854775807)])]) }⟩ ∧
    ⌈(9223372036854775807 : ℚ) / 2⌉ = 4611686018427387904 := by
  refine ⟨by decide, by decide, by norm_num, rfl, ?_⟩
  rw [Int.ceil_eq_iff]
  constructor <;> norm_num

/-- C15, amended: for `total ≥ 0` and `limit ≥ 1` with `total + limit - 1` within the range
of Go's `int`, `PaginatedResponse` answers with status 200 and a meta object whose
`pagination` carries `limit`, `page` and `total` as given and, as `pages`, the ceiling of
`total / limit`. -/
theorem PaginatedResponse_pages (message : String) (data : Option JSON)
    (total page limit : Int)
    (htotal : 0 ≤ total) (hlimit : 1 ≤ limit) (hfits : total + limit - 1 < 2 ^ 63) :
    utils.PaginatedResponse message data total page limit
      = some ⟨200, {
          Success := true, Message := message, Data := data, Error := "",
          Meta := some (.object [
            ("pagination", .object [
              ("limit", .number limit),
              ("page", .number page),
              ("pages", .number ⌈(total : ℚ) / (limit : ℚ)⌉),
              ("total", .number total)])]) }⟩ := by
  have hne : limit ≠ 0 := by omega
  have hnum : wrapInt (wrapInt (total + limit) - 1) = total + limit - 1 := by
    rw [wrapInt_sub_one, wrapInt_of_fits (by omega) (by omega)]
  have hq0 : 0 ≤ (total + limit - 1) / limit := Int.ediv_nonneg (by omega) (by omega)
  have hqle : (total + limit - 1) / limit ≤ total + limit - 1 :=
    Int.ediv_le_self _ (by omega)
  have hdiv : wrapInt (Int.tdiv (total + limit - 1) limit) = (total + limit - 1) / limit := by
    rw [Int.tdiv_eq_ediv (by omega) (by omega), wrapInt_of_fits (by omega) (by omega)]
  have hceil : ⌈(total : ℚ) / (limit : ℚ)⌉ = (total + limit - 1) / limit := by
    have hpos : (0 : ℚ) < (limit : ℚ) := by exact_mod_cast (by omega : (0 : Int) < limit)
    have hmod := Int.emod_add_ediv (total + limit - 1) limit
    have hr0 := Int.emod_nonneg (total + limit - 1) hne
    have hr1 := Int.emod_lt_of_pos (total + limit - 1) (by omega : (0 : Int) < limit)
    rw [Int.ceil_eq_iff]
    constructor
    · rw [lt_div_iff₀ hpos]
      have : ((total + limit - 1) / limit - 1) * limit < total := by nlinarith
      exact_mod_cast this
    · rw [div_le_iff₀ hpos]
      have : total ≤ (total + limit - 1) / limit * limit := by nlinarith
      exact_mod_cast this
  simp only [utils.PaginatedResponse, if_neg hne, hnum, hdiv, hceil,
    utils.SuccessResponseWithMeta]

theorem PaginatedResponse_pages_witness :
    ((0 : Int) ≤ 25 ∧ (1 : Int) ≤ 10 ∧ (25 : Int) + 10 - 1 < 2 ^ 63) ∧
    ⌈((25 : Int) : ℚ) / ((10 : Int) : ℚ)⌉ = 3 ∧
    utils.PaginatedResponse "Users" none 25 1 10
      = some ⟨200, {
          Success := true, Message := "Users", Data := none, Error := "",
          Meta := some (.object [
            ("pagination", .object [
              ("limit", .number 10),
              ("page", .number 1),
              ("pages", .number ⌈((25 : Int) : ℚ) / ((10 : Int) : ℚ)⌉),
              ("total", .number 25)])]) }⟩ :=
  ⟨⟨by decide, by decide, by decide⟩,
    by rw [Int.ceil_eq_iff]; constructor <;> norm_num,
    PaginatedResponse_pages "Users" none 25 1 10 (by decide) (by decide) (by decide)⟩

end Backend
